import Mathlib

/-!
Shallow embedding of `internal/providers/terraform/hcl_provider.go`:
the converter from a parsed HCL block tree to a Terraform-style plan-JSON
document (`modulesToPlanJSON`, `marshalAttributeValues`, `marshalBlock`,
`blockToReferences`, `loadPlanJSON`), together with an abstract model of the
JSON values the converter builds and of Go's `encoding/json` marshalling of
the assembled document.

Go `map[string]T` values are embedded as association lists
(`List (String × T)`) with insert-or-replace update (`goInsert`), which
preserves Go's map semantics (one entry per key, later writes overwrite).
Go's nondeterministic map iteration order is modelled at serialization time:
the document serializer takes an arbitrary reordering function applied to
each map's encoded entries before they are key-sorted, the way
`encoding/json` sorts map keys.
-/

namespace HCLProvider

/-- A JSON-compatible value as assembled by the converter: raw pre-encoded
bytes (`json.RawMessage`), strings, integers, booleans, null, arrays, and
objects.  Objects coming from Go maps (`mapObj`) are serialized with sorted
keys; objects coming from Go structs (`structObj`) keep field declaration
order. -/
inductive JVal where
  | raw (s : String)
  | str (s : String)
  | num (n : Int)
  | boolean (b : Bool)
  | null
  | arr (xs : List JVal)
  | mapObj (entries : List (String × JVal))
  | structObj (fields : List (String × JVal))
  deriving Repr

/-- A Go `map[string]T` value, embedded as an association list in insertion
order. -/
abbrev GoMap (α : Type) := List (String × α)

/-- The JSON object built for one block (Go `map[string]interface{}`). -/
abbrev Obj := GoMap JVal

/-- Go map read `m[k]`: the value at key `k`, if present. -/
def goLookup {α : Type} (m : GoMap α) (k : String) : Option α :=
  (m.find? (fun kv => kv.1 == k)).map (fun kv => kv.2)

/-- Go map write `m[k] = v`: replace the existing entry in place, else
append a new one. -/
def goInsert {α : Type} (m : GoMap α) (k : String) (v : α) : GoMap α :=
  if m.any (fun kv => kv.1 == k) then
    m.map (fun kv => if kv.1 == k then (k, v) else kv)
  else
    m ++ [(k, v)]

/-- An evaluated `cty.Value` attached to an attribute by the external
parser: the nil sentinel (`cty.NilVal`), a typed null, strings, integers,
booleans, object/map collections, and `badVal`, an abstract value that the
JSON encoder cannot encode (the source of serialization errors). -/
inductive CtyVal where
  | nilVal
  | nullVal
  | str (s : String)
  | num (n : Int)
  | boolean (b : Bool)
  | obj (entries : List (String × CtyVal))
  | badVal (tag : String)
  deriving Repr

/-- The element iterator of a collection value (`value.ElementIterator()`);
the converter only ever iterates object values (a block's evaluated
attribute-value map), so non-objects yield no elements. -/
def ctyElements : CtyVal → List (String × CtyVal)
  | .obj entries => entries
  | _ => []

/-- `ctyJson.Marshal v`: the encoded JSON bytes together with an optional
encoding error.  `badVal` (and the nil sentinel) cannot be encoded: the
error is reported and the produced bytes are empty, as a failed Go marshal
returns `nil` bytes. -/
def ctyJsonMarshal : CtyVal → String × Option String
  | .nilVal => ("", some "cannot encode nil value")
  | .nullVal => ("null", none)
  | .str s => ("\x22" ++ s ++ "\x22", none)
  | .num n => (toString n, none)
  | .boolean b => (if b then "true" else "false", none)
  | .obj entries =>
      ("\x7b" ++ ",".intercalate (entries.attach.map
          (fun kv => "\x22" ++ kv.val.1 ++ "\x22:" ++ (ctyJsonMarshal kv.val.2).1)) ++ "\x7d",
       none)
  | .badVal _ => ("", some "cannot encode value")
decreasing_by
  rcases kv with ⟨⟨k, v⟩, hmem⟩
  have h1 := List.sizeOf_lt_of_mem hmem
  simp only [Prod.mk.sizeOf_spec, CtyVal.obj.sizeOf_spec] at h1 ⊢
  omega

/-- Sort a list of strings into `≤` order, the way `encoding/json` sorts the
encoded entries of a Go map by key before writing them out. -/
def sortStrings (l : List String) : List String :=
  List.insertionSort (fun a b => a ≤ b) l

/-- The document serializer, parametrized by the reordering `r` that Go's
nondeterministic map iteration applies to each map's encoded entries before
`encoding/json` sorts them.  A run of `json.Marshal` corresponds to one
choice of `r` with `r l` a permutation of `l`. -/
def renderWith (r : List String → List String) : JVal → String
  | .raw s => s
  | .str s => "\x22" ++ s ++ "\x22"
  | .num n => toString n
  | .boolean b => if b then "true" else "false"
  | .null => "null"
  | .arr xs =>
      "[" ++ ",".intercalate (xs.attach.map (fun x => renderWith r x.val)) ++ "]"
  | .structObj l =>
      "\x7b" ++ ",".intercalate (l.attach.map
        (fun kv => "\x22" ++ kv.val.1 ++ "\x22:" ++ renderWith r kv.val.2)) ++ "\x7d"
  | .mapObj l =>
      "\x7b" ++ ",".intercalate (sortStrings (r (l.attach.map
        (fun kv => "\x22" ++ kv.val.1 ++ "\x22:" ++ renderWith r kv.val.2)))) ++ "\x7d"
decreasing_by
  · have h1 := List.sizeOf_lt_of_mem x.property
    simp only [JVal.arr.sizeOf_spec]
    omega
  · rcases kv with ⟨⟨k, v⟩, hmem⟩
    have h1 := List.sizeOf_lt_of_mem hmem
    simp only [Prod.mk.sizeOf_spec, JVal.structObj.sizeOf_spec] at h1 ⊢
    omega
  · rcases kv with ⟨⟨k, v⟩, hmem⟩
    have h1 := List.sizeOf_lt_of_mem hmem
    simp only [Prod.mk.sizeOf_spec, JVal.mapObj.sizeOf_spec] at h1 ⊢
    omega

/-- Whether `encoding/json` can marshal the value: every embedded raw
message must be valid JSON.  The empty raw message is what a failed
per-attribute encode leaves behind, and it is invalid. -/
def jvalValid : JVal → Bool
  | .raw s => !s.isEmpty
  | .str _ => true
  | .num _ => true
  | .boolean _ => true
  | .null => true
  | .arr xs => xs.attach.all (fun x => jvalValid x.val)
  | .mapObj l => l.attach.all (fun kv => jvalValid kv.val.2)
  | .structObj l => l.attach.all (fun kv => jvalValid kv.val.2)
decreasing_by
  · have h1 := List.sizeOf_lt_of_mem x.property
    simp only [JVal.arr.sizeOf_spec]
    omega
  · rcases kv with ⟨⟨k, v⟩, hmem⟩
    have h1 := List.sizeOf_lt_of_mem hmem
    simp only [Prod.mk.sizeOf_spec, JVal.mapObj.sizeOf_spec] at h1 ⊢
    omega
  · rcases kv with ⟨⟨k, v⟩, hmem⟩
    have h1 := List.sizeOf_lt_of_mem hmem
    simp only [Prod.mk.sizeOf_spec, JVal.structObj.sizeOf_spec] at h1 ⊢
    omega

/-- An attribute of a block: a name, an evaluated value, and the rendered
addresses of the symbolic references its expression depends on
(`attribute.AllReferences()`, each rendered by `ref.String()`).
Modelled from the spec: the `hcl.Attribute` type is not under `src/`;
per the spec a block's Attribute carries a name, an evaluated value and a
list of symbolic References, each rendering to a string address. -/
structure Attribute where
  name : String
  value : CtyVal
  references : List String
  deriving Repr

/-- A parsed configuration block.
Modelled from the spec: the `hcl.Block` type is not under `src/`; per the
spec a Block carries a block kind (`Type()`), a type label, a name label, a
flag for whether it sits inside a module call (`HasModuleBlock()`), a module
name/source/address when nested, an evaluated attribute-value map
(`Values()` — always a map, per spec section 3), an ordered list of child
blocks, a list of attributes, and the address strings `FullName()` /
`LocalName()` and the provider name `Provider()`. -/
inductive Block where
  | mk
    (kind : String)
    (typeLabel : String)
    (nameLabel : String)
    (attributes : List Attribute)
    (values : List (String × CtyVal))
    (children : List Block)
    (hasModuleBlock : Bool)
    (moduleName : String)
    (moduleSource : String)
    (moduleAddress : String)
    (fullName : String)
    (localName : String)
    (providerName : String)
  deriving Repr

/-- `block.Type()`. -/
def Block.kind : Block → String
  | .mk k _ _ _ _ _ _ _ _ _ _ _ _ => k

/-- `block.TypeLabel()`. -/
def Block.typeLabel : Block → String
  | .mk _ t _ _ _ _ _ _ _ _ _ _ _ => t

/-- `block.NameLabel()`. -/
def Block.nameLabel : Block → String
  | .mk _ _ n _ _ _ _ _ _ _ _ _ _ => n

/-- `block.GetAttributes()`. -/
def Block.attributes : Block → List Attribute
  | .mk _ _ _ a _ _ _ _ _ _ _ _ _ => a

/-- The entries of the block's evaluated attribute-value map. -/
def Block.values : Block → List (String × CtyVal)
  | .mk _ _ _ _ v _ _ _ _ _ _ _ _ => v

/-- `block.Children()`. -/
def Block.children : Block → List Block
  | .mk _ _ _ _ _ c _ _ _ _ _ _ _ => c

/-- `block.HasModuleBlock()`. -/
def Block.hasModuleBlock : Block → Bool
  | .mk _ _ _ _ _ _ h _ _ _ _ _ _ => h

/-- `block.ModuleName()`. -/
def Block.moduleName : Block → String
  | .mk _ _ _ _ _ _ _ m _ _ _ _ _ => m

/-- `block.ModuleSource()`. -/
def Block.moduleSource : Block → String
  | .mk _ _ _ _ _ _ _ _ s _ _ _ _ => s

/-- `block.ModuleAddress()`. -/
def Block.moduleAddress : Block → String
  | .mk _ _ _ _ _ _ _ _ _ a _ _ _ => a

/-- `block.FullName()`. -/
def Block.fullName : Block → String
  | .mk _ _ _ _ _ _ _ _ _ _ f _ _ => f

/-- `block.LocalName()`. -/
def Block.localName : Block → String
  | .mk _ _ _ _ _ _ _ _ _ _ _ l _ => l

/-- `block.Provider()`. -/
def Block.providerName : Block → String
  | .mk _ _ _ _ _ _ _ _ _ _ _ _ p => p

/-- `block.Values()`.
Modelled from the spec: `hcl.Block.Values` is not under `src/`; per spec
section 3 every block carries an evaluated attribute-value map, so the
returned value is always an object (never the nil sentinel or a null). -/
def Block.blockValues (b : Block) : CtyVal :=
  .obj b.values

/-- `block.GetAttribute(name)`.
Modelled from the spec: `hcl.Block.GetAttribute` is not under `src/`; it
returns the block's attribute with the given name, or nothing. -/
def Block.getAttribute (b : Block) (n : String) : Option Attribute :=
  b.attributes.find? (fun a => a.name == n)

/-- `attr.Value()` on a possibly-nil attribute pointer.
Modelled from the spec: a missing attribute reads as the nil value sentinel
(spec: region is read from a `region` attribute if present, else recorded
as empty string). -/
def attrValue : Option Attribute → CtyVal
  | none => .nilVal
  | some a => a.value

/-- `value.AsString()`.
Modelled from the spec: converting an evaluated value to a string yields the
string itself for string values and the empty string otherwise (spec: an
unparseable or missing value yields the empty string, never an error). -/
def CtyVal.asString : CtyVal → String
  | .str s => s
  | _ => ""

/-- A named scope of top-level blocks (`hcl.Module`).
Modelled from the spec: the `hcl.Module` type is not under `src/`; per the
spec a Module is a named scope containing an ordered sequence of blocks. -/
structure Module where
  blocks : List Block
  deriving Repr

/-- The loop body of `marshalAttributeValues` (hcl_provider.go lines
310-320): encode one element's value (`ctyJson.Marshal`, its error
discarded) and record the raw bytes under the key, skipping the attribute
named `count` when the block kind is `resource` or `module`. -/
def marshalAttributeValuesStep (blockType : String) (ret : Obj) (kv : String × CtyVal) : Obj :=
  let vJSON := (ctyJsonMarshal kv.2).1
  let key := kv.1
  if (blockType == "resource" || blockType == "module") && key == "count" then
    ret
  else
    goInsert ret key (.raw vJSON)

/-- `marshalAttributeValues` (hcl_provider.go): convert one block's
evaluated attribute-value container into a JSON object.  Returns the Go
`nil` map (here `none`) when the container is the nil sentinel or null;
otherwise folds the loop body over the container's elements. -/
def marshalAttributeValues (blockType : String) (value : CtyVal) : Option Obj :=
  match value with
  | .nilVal => none
  | .nullVal => none
  | v => some ((ctyElements v).foldl (marshalAttributeValuesStep blockType) [])

/-- A block's child list is structurally smaller than the block. -/
theorem Block.sizeOf_children_lt (b : Block) : sizeOf b.children < sizeOf b := by
  cases b
  simp [Block.children]
  omega

mutual

/-- `marshalBlock` (hcl_provider.go): for every child block, append the
child's own marshalled (and recursively processed) attribute map to the
list stored under the child's kind in `jsonValues`.  The Go function
mutates the caller's map in place; here the updated map is returned.
A child whose own value container is nil/null would make the Go code write
into a nil map; that branch is unreachable because a block's value
container is always a map (see `marshalAttributeValues_blockValues_isSome`),
so the `none` case is read as the empty map. -/
def marshalBlock (block : Block) (jsonValues : Obj) : Obj :=
  marshalChildren block.children jsonValues
termination_by sizeOf block
decreasing_by
  exact Block.sizeOf_children_lt block

/-- The loop body of `marshalBlock` over the child list.  When the value
already stored under the child's kind is not a list the Go type assertion
`v.([]interface{})` would panic; that case cannot arise from the maps this
converter builds and is modelled as starting a fresh list. -/
def marshalChildren : List Block → Obj → Obj
  | [], jsonValues => jsonValues
  | b :: rest, jsonValues =>
      let childValues := (marshalAttributeValues b.kind b.blockValues).getD []
      let childValues :=
        if b.children.length > 0 then marshalBlock b childValues else childValues
      let jsonValues :=
        match goLookup jsonValues b.kind with
        | some (.arr v) => goInsert jsonValues b.kind (.arr (v ++ [.mapObj childValues]))
        | some _ => goInsert jsonValues b.kind (.arr [.mapObj childValues])
        | none => goInsert jsonValues b.kind (.arr [.mapObj childValues])
      marshalChildren rest jsonValues
termination_by l _ => sizeOf l
decreasing_by
  all_goals (simp <;> omega)

end

mutual

/-- `blockToReferences` (hcl_provider.go): per attribute with at least one
reference, record `{references: [address, ...]}` under the attribute name;
the source's child-block scan sits inside the attribute loop, so child
entries are merged in (and recomputed, identically, since the computation
is pure — hoisted here) once per attribute iteration. -/
def blockToReferences (block : Block) : Obj :=
  let childExpressions := childExpressionsOf block.children []
  block.attributes.foldl
    (fun expressionValues attr =>
      let references := attr.references
      let expressionValues :=
        if references.length > 0 then
          goInsert expressionValues attr.name
            (.structObj [("references", .arr (references.map .str))])
        else expressionValues
      childExpressions.foldl
        (fun ev nv => goInsert ev nv.1 (.arr (nv.2.map .mapObj)))
        expressionValues)
    []
termination_by sizeOf block
decreasing_by
  exact Block.sizeOf_children_lt block

/-- The child scan of `blockToReferences`: per child whose recursive
extraction is non-empty, append it to the list under the child's kind. -/
def childExpressionsOf : List Block → GoMap (List Obj) → GoMap (List Obj)
  | [], childExpressions => childExpressions
  | child :: rest, childExpressions =>
      let vals := (goLookup childExpressions child.kind).getD []
      let childReferences := blockToReferences child
      childExpressionsOf rest
        (if childReferences.length > 0 then
          goInsert childExpressions child.kind (vals ++ [childReferences])
        else childExpressions)
termination_by l _ => sizeOf l
decreasing_by
  all_goals (simp <;> omega)

end

/-- Output record `ResourceJSON` (one planned resource). -/
structure ResourceJSON where
  address : String
  mode : String
  type : String
  name : String
  schemaVersion : Int
  values : Obj
  deriving Repr

/-- Output record `ResourceChange` (the `change` object of one resource
change: actions, before, after). -/
structure ResourceChange where
  actions : List String
  before : JVal
  after : Obj
  deriving Repr

/-- Output record `ResourceChangesJSON` (one entry of the flat
`resource_changes` list). -/
structure ResourceChangesJSON where
  address : String
  moduleAddress : String
  mode : String
  type : String
  name : String
  change : ResourceChange
  deriving Repr

/-- Output record `ChildModule` (the synthetic child-module bucket of
planned values). -/
structure ChildModule where
  resources : List ResourceJSON
  deriving Repr

/-- Output record `PlanRootModule` (`planned_values.root_module`). -/
structure PlanRootModule where
  resources : List ResourceJSON
  childModules : List ChildModule
  deriving Repr

/-- The anonymous `PlannedValues` wrapper struct of `PlanSchema`. -/
structure PlannedValues where
  rootModule : PlanRootModule
  deriving Repr

/-- Output record `ProviderConfig` (one entry of
`configuration.provider_config`). -/
structure ProviderConfig where
  name : String
  expressions : Obj
  deriving Repr

/-- Output record `ResourceData` (one resource declaration of the
configuration tree). -/
structure ResourceData where
  address : String
  mode : String
  type : String
  name : String
  providerConfigKey : String
  expressions : Obj
  deriving Repr

/-- Output record `ModuleCallModule` (the `module` object of a module
call). -/
structure ModuleCallModule where
  resources : List ResourceData
  deriving Repr

/-- Output record `ModuleCall` (one entry of
`configuration.root_module.module_calls`). -/
structure ModuleCall where
  source : String
  module : ModuleCallModule
  deriving Repr

/-- The anonymous `RootModule` struct of `Configuration`. -/
structure ConfigRootModule where
  resources : List ResourceData
  moduleCalls : GoMap ModuleCall
  deriving Repr

/-- Output record `Configuration`. -/
structure Configuration where
  providerConfig : GoMap ProviderConfig
  rootModule : ConfigRootModule
  deriving Repr

/-- Output record `PlanSchema`: the whole plan-JSON document.  The
`Variables` field is always `nil` in this converter and is omitted from
serialization (`omitempty`), so it is not modelled. -/
structure PlanSchema where
  formatVersion : String
  terraformVersion : String
  plannedValues : PlannedValues
  resourceChanges : List ResourceChangesJSON
  configuration : Configuration
  deriving Repr

/-- The fresh document `modulesToPlanJSON` starts from (hcl_provider.go
lines 117-140): format/version strings, empty root planned resources with
exactly one empty child-module bucket, empty resource changes, empty
provider configs, and empty root-module configuration. -/
def initialPlanSchema : PlanSchema where
  formatVersion := "1.0"
  terraformVersion := "1.1.0"
  plannedValues := { rootModule := { resources := [], childModules := [{ resources := [] }] } }
  resourceChanges := []
  configuration :=
    { providerConfig := []
      rootModule := { resources := [], moduleCalls := [] } }

/-- The effective name of a provider block: the `alias` attribute's value
if the attribute is present, else the type label (hcl_provider.go lines
147-150). -/
def providerEffName (block : Block) : String :=
  match block.getAttribute "alias" with
  | some a => a.value.asString
  | none => block.typeLabel

/-- The `region` recorded for a provider block: the `region` attribute's
value when it is readable, else the empty string (hcl_provider.go lines
157-161). -/
def providerRegion (block : Block) : String :=
  match attrValue (block.getAttribute "region") with
  | .nilVal => ""
  | value => value.asString

/-- The `ProviderConfig` entry recorded for one provider block
(hcl_provider.go lines 163-170). -/
def providerConfigEntry (block : Block) : ProviderConfig where
  name := providerEffName block
  expressions :=
    [("region", .mapObj [("constant_value", .str (providerRegion block))])]

/-- One iteration of pass 1 of `modulesToPlanJSON` (hcl_provider.go lines
145-172): for a provider block, record its provider config and assign the
module's default provider key while that key is still empty. -/
def providerStep (acc : PlanSchema × String) (block : Block) : PlanSchema × String :=
  if block.kind == "provider" then
    let name := providerEffName block
    let providerKey := if acc.2 == "" then name else acc.2
    let sch := acc.1
    ({ sch with
        configuration :=
          { sch.configuration with
              providerConfig :=
                goInsert sch.configuration.providerConfig name (providerConfigEntry block) } },
     providerKey)
  else acc

/-- Pass 1 of `modulesToPlanJSON` over one module's blocks (hcl_provider.go
lines 142-172), starting from the module's fresh empty provider key. -/
def providerPass (module : Module) (sch : PlanSchema) : PlanSchema × String :=
  module.blocks.foldl providerStep (sch, "")

/-- The marshalled value snapshot of a resource block (hcl_provider.go
lines 195-196): its attribute map, merged in place with its child blocks'
marshalled maps. -/
def resourceJsonValues (block : Block) : Obj :=
  marshalBlock block ((marshalAttributeValues block.kind block.blockValues).getD [])

/-- The planned-resource record of one resource block (hcl_provider.go
lines 176-182 and 199). -/
def resourceJSONOf (block : Block) : ResourceJSON where
  address := block.fullName
  mode := "managed"
  type := block.typeLabel
  name := block.nameLabel
  schemaVersion := 1
  values := resourceJsonValues block

/-- The resource-change record of one resource block (hcl_provider.go
lines 184-193 and 198). -/
def resourceChangeOf (block : Block) : ResourceChangesJSON where
  address := block.fullName
  moduleAddress := block.moduleAddress
  mode := "managed"
  type := block.typeLabel
  name := block.nameLabel
  change := { actions := ["create"], before := .null, after := resourceJsonValues block }

/-- The effective provider-config key of a root-level resource block: its
own `provider` attribute's value when that is a plain string, else the
module's default provider key (hcl_provider.go lines 201-208). -/
def effectiveProviderKey (providerKey : String) (block : Block) : String :=
  match block.getAttribute "provider" with
  | some a =>
      match a.value with
      | .str s => s
      | _ => providerKey
  | none => providerKey

/-- The configuration declaration of a root-level resource block
(hcl_provider.go lines 233-240). -/
def rootResourceData (providerConfigKey : String) (block : Block) : ResourceData where
  address := block.fullName
  mode := "managed"
  type := block.typeLabel
  name := block.localName
  providerConfigKey := providerConfigKey
  expressions := blockToReferences block

/-- The configuration declaration of a module-nested resource block
(hcl_provider.go lines 221-228). -/
def nestedResourceData (block : Block) : ResourceData where
  address := block.localName
  mode := "managed"
  type := block.typeLabel
  name := block.nameLabel
  providerConfigKey := block.moduleName ++ ":" ++ block.providerName
  expressions := blockToReferences block

/-- Append a planned-resource record to the single synthetic child-module
bucket `planned_values.root_module.child_modules[0]` (hcl_provider.go line
231). -/
def appendToChildModule (cms : List ChildModule) (r : ResourceJSON) : List ChildModule :=
  match cms with
  | [] => []
  | c :: rest => { c with resources := c.resources ++ [r] } :: rest

/-- Pass 2 of `modulesToPlanJSON` for one resource block (hcl_provider.go
lines 175-246): build its planned-resource and resource-change records,
assign the planned record and its configuration declaration to the root
module or to the module-call / child-module bucket, and always append the
change record to the flat list. -/
def processResourceBlock (providerKey : String) (sch : PlanSchema) (block : Block) : PlanSchema :=
  let r := resourceJSONOf block
  let c := resourceChangeOf block
  let providerConfigKey := effectiveProviderKey providerKey block
  let sch :=
    if block.hasModuleBlock then
      let modCall :=
        match goLookup sch.configuration.rootModule.moduleCalls block.moduleName with
        | some mc => mc
        | none => { source := block.moduleSource, module := { resources := [] } }
      let modCall :=
        { modCall with
            module := { resources := modCall.module.resources ++ [nestedResourceData block] } }
      { sch with
          configuration :=
            { sch.configuration with
                rootModule :=
                  { sch.configuration.rootModule with
                      moduleCalls :=
                        goInsert sch.configuration.rootModule.moduleCalls block.moduleName modCall } }
          plannedValues :=
            { rootModule :=
                { sch.plannedValues.rootModule with
                    childModules :=
                      appendToChildModule sch.plannedValues.rootModule.childModules r } } }
    else
      { sch with
          configuration :=
            { sch.configuration with
                rootModule :=
                  { sch.configuration.rootModule with
                      resources :=
                        sch.configuration.rootModule.resources
                          ++ [rootResourceData providerConfigKey block] } }
          plannedValues :=
            { rootModule :=
                { sch.plannedValues.rootModule with
                    resources := sch.plannedValues.rootModule.resources ++ [r] } } }
  { sch with resourceChanges := sch.resourceChanges ++ [c] }

/-- One iteration of pass 2 of `modulesToPlanJSON` (hcl_provider.go lines
174-175): process the block when it is a resource block, else skip it. -/
def resourceStep (providerKey : String) (sch : PlanSchema) (block : Block) : PlanSchema :=
  if block.kind == "resource" then processResourceBlock providerKey sch block else sch

/-- Both passes of `modulesToPlanJSON` for one module (hcl_provider.go
lines 142-248). -/
def processModule (sch : PlanSchema) (module : Module) : PlanSchema :=
  let pass1 := providerPass module sch
  let providerKey := pass1.2
  module.blocks.foldl (resourceStep providerKey) pass1.1

/-- `modulesToPlanJSON` (hcl_provider.go lines 116-251). -/
def modulesToPlanJSON (modules : List Module) : PlanSchema :=
  modules.foldl processModule initialPlanSchema

/-- `encoding/json` encoding of a `ResourceJSON` record (struct fields in
declaration order). -/
def resourceJSONToJVal (r : ResourceJSON) : JVal :=
  .structObj
    [("address", .str r.address), ("mode", .str r.mode), ("type", .str r.type),
     ("name", .str r.name), ("schema_version", .num r.schemaVersion),
     ("values", .mapObj r.values)]

/-- `encoding/json` encoding of a `ResourceChangesJSON` record. -/
def resourceChangesJSONToJVal (c : ResourceChangesJSON) : JVal :=
  .structObj
    [("address", .str c.address), ("module_address", .str c.moduleAddress),
     ("mode", .str c.mode), ("type", .str c.type), ("name", .str c.name),
     ("change", .structObj
        [("actions", .arr (c.change.actions.map .str)),
         ("before", c.change.before),
         ("after", .mapObj c.change.after)])]

/-- `encoding/json` encoding of a `ResourceData` record. -/
def resourceDataToJVal (d : ResourceData) : JVal :=
  .structObj
    [("address", .str d.address), ("mode", .str d.mode), ("type", .str d.type),
     ("name", .str d.name), ("provider_config_key", .str d.providerConfigKey),
     ("expressions", .mapObj d.expressions)]

/-- `encoding/json` encoding of a `ModuleCall` record. -/
def moduleCallToJVal (mc : ModuleCall) : JVal :=
  .structObj
    [("source", .str mc.source),
     ("module", .structObj
        [("resources", .arr (mc.module.resources.map resourceDataToJVal))])]

/-- `encoding/json` encoding of a `ProviderConfig` record. -/
def providerConfigToJVal (pc : ProviderConfig) : JVal :=
  .structObj [("name", .str pc.name), ("expressions", .mapObj pc.expressions)]

/-- `encoding/json` encoding of the whole `PlanSchema` document: struct
fields in declaration order, Go maps as `mapObj`, the `omitempty` lists
(`variables`, the two `resources` lists) left out when empty. -/
def planSchemaToJVal (sch : PlanSchema) : JVal :=
  .structObj
    ([("format_version", .str sch.formatVersion),
      ("terraform_version", .str sch.terraformVersion),
      ("planned_values", .structObj
        [("root_module", .structObj
            ((if sch.plannedValues.rootModule.resources.isEmpty then []
              else [("resources",
                      JVal.arr (sch.plannedValues.rootModule.resources.map resourceJSONToJVal))])
             ++ [("child_modules", .arr (sch.plannedValues.rootModule.childModules.map
                    (fun cm => .structObj
                        [("resources", .arr (cm.resources.map resourceJSONToJVal))])))]))]),
      ("resource_changes", .arr (sch.resourceChanges.map resourceChangesJSONToJVal)),
      ("configuration", .structObj
        [("provider_config", .mapObj
            (sch.configuration.providerConfig.map (fun kv => (kv.1, providerConfigToJVal kv.2)))),
         ("root_module", .structObj
            ((if sch.configuration.rootModule.resources.isEmpty then []
              else [("resources",
                      JVal.arr (sch.configuration.rootModule.resources.map resourceDataToJVal))])
             ++ [("module_calls", .mapObj
                    (sch.configuration.rootModule.moduleCalls.map
                      (fun kv => (kv.1, moduleCallToJVal kv.2))))]))])])

/-- `json.Marshal(sch)` under map-iteration order `r`: fails exactly when
the document embeds an invalid raw message (the bytes a failed
per-attribute encode left behind), else produces the serialized bytes. -/
def jsonMarshalWith (r : List String → List String) (sch : PlanSchema) : Except String String :=
  if jvalValid (planSchemaToJVal sch) then
    .ok (renderWith r (planSchemaToJVal sch))
  else
    .error "json: error calling MarshalJSON for type json.RawMessage: unexpected end of JSON input"

/-- `json.Marshal(sch)` with the identity iteration order. -/
def jsonMarshal (sch : PlanSchema) : Except String String :=
  jsonMarshalWith (fun l => l) sch

/-- `loadPlanJSON` (hcl_provider.go lines 102-114), given the result of
`p.Parser.ParseDirectory()`: a parse error is returned unchanged; otherwise
the modules are converted and serialized, a serialization error being
wrapped with the descriptive prefix; on success the bytes are returned. -/
def loadPlanJSON (parsed : Except String (List Module)) : Except String String :=
  match parsed with
  | .error err => .error err
  | .ok modules =>
      match jsonMarshal (modulesToPlanJSON modules) with
      | .error err => .error ("error handling built plan json from hcl " ++ err)
      | .ok b => .ok b

/-! ### Association-list lemmas for the Go map operations -/

theorem goLookup_nil {α : Type} (k : String) : goLookup ([] : GoMap α) k = none := rfl

theorem goLookup_cons {α : Type} (kv : String × α) (m : GoMap α) (k : String) :
    goLookup (kv :: m) k = if kv.1 == k then some kv.2 else goLookup m k := by
  by_cases h : kv.1 == k <;> simp [goLookup, List.find?, h]

theorem goLookup_append_right {α : Type} (m₁ m₂ : GoMap α) (k : String)
    (h : goLookup m₁ k = none) : goLookup (m₁ ++ m₂) k = goLookup m₂ k := by
  induction m₁ with
  | nil => simp
  | cons kv m₁ ih =>
      rw [goLookup_cons] at h
      by_cases hk : kv.1 == k
      · simp [hk] at h
      · rw [List.cons_append, goLookup_cons, if_neg hk]
        exact ih (by simpa [hk] using h)

theorem goLookup_eq_none_iff {α : Type} (m : GoMap α) (k : String) :
    goLookup m k = none ↔ ∀ kv ∈ m, ¬(kv.1 == k) := by
  simp [goLookup, List.find?_eq_none]

/-- Looking up the just-written key yields the written value. -/
theorem goLookup_goInsert_self {α : Type} (m : GoMap α) (k : String) (v : α) :
    goLookup (goInsert m k v) k = some v := by
  unfold goInsert
  by_cases h : m.any (fun kv => kv.1 == k)
  · rw [if_pos h]
    induction m with
    | nil => simp at h
    | cons kv m ih =>
        simp only [List.map_cons]
        by_cases hk : kv.1 == k
        · simp [goLookup_cons, hk]
        · rw [if_neg hk, goLookup_cons, if_neg hk]
          exact ih (by simpa [List.any_cons, hk] using h)
  · rw [if_neg h]
    have hnone : goLookup m k = none := by
      rw [goLookup_eq_none_iff]
      intro kv hkv
      exact fun hk => h (List.any_eq_true.mpr ⟨kv, hkv, hk⟩)
    rw [goLookup_append_right _ _ _ hnone, goLookup_cons]
    simp

/-- String inequality gives a false boolean equality test. -/
theorem str_beq_false {a b : String} (h : a ≠ b) : (a == b) = false := by
  simp [h]

/-- Writing one key leaves every other key's lookup unchanged. -/
theorem goLookup_goInsert_ne {α : Type} (m : GoMap α) (k k' : String) (v : α)
    (h : k' ≠ k) : goLookup (goInsert m k v) k' = goLookup m k' := by
  have hkk' : k ≠ k' := Ne.symm h
  unfold goInsert
  by_cases hm : m.any (fun kv => kv.1 == k)
  · rw [if_pos hm]
    clear hm
    induction m with
    | nil => simp
    | cons kv m ih =>
        simp only [List.map_cons]
        by_cases hk : kv.1 == k
        · have hkv : kv.1 = k := by simpa using hk
          rw [if_pos hk, goLookup_cons, goLookup_cons]
          have h1 : (kv.1 == k') = false := by rw [hkv]; exact str_beq_false hkk'
          have h2 : ((k, v).1 == k') = false := str_beq_false hkk'
          rw [h1, h2, ih]
          simp
        · rw [if_neg hk, goLookup_cons, goLookup_cons, ih]
  · rw [if_neg hm]
    clear hm
    induction m with
    | nil =>
        rw [List.nil_append, goLookup_cons]
        simp [str_beq_false hkk']
    | cons kv m ih =>
        rw [List.cons_append, goLookup_cons, goLookup_cons]
        by_cases hk : kv.1 == k'
        · rw [if_pos hk, if_pos hk]
        · rw [if_neg hk, if_neg hk]
          exact ih

/-- Sorting is invariant under permutation of the input: `encoding/json`'s
key sort erases the map iteration order. -/
theorem sortStrings_eq_of_perm {l₁ l₂ : List String} (h : l₁.Perm l₂) :
    sortStrings l₁ = sortStrings l₂ := by
  haveI : IsAntisymm String (fun a b : String => a ≤ b) :=
    ⟨fun _ _ hab hba => le_antisymm hab hba⟩
  have hs1 : List.Sorted (fun a b : String => a ≤ b) (sortStrings l₁) := by
    unfold sortStrings
    exact List.sorted_insertionSort _ l₁
  have hs2 : List.Sorted (fun a b : String => a ≤ b) (sortStrings l₂) := by
    unfold sortStrings
    exact List.sorted_insertionSort _ l₂
  have hp : (sortStrings l₁).Perm (sortStrings l₂) :=
    (List.perm_insertionSort _ l₁).trans (h.trans (List.perm_insertionSort _ l₂).symm)
  exact List.eq_of_perm_of_sorted hp hs1 hs2

/-- The serializer produces the same bytes under any two map-iteration
orders: every map's encoded entries are key-sorted before writing. -/
theorem renderWith_congr (r₁ r₂ : List String → List String)
    (h₁ : ∀ l, (r₁ l).Perm l) (h₂ : ∀ l, (r₂ l).Perm l) :
    ∀ v : JVal, renderWith r₁ v = renderWith r₂ v
  | .raw _ => by simp only [renderWith]
  | .str _ => by simp only [renderWith]
  | .num _ => by simp only [renderWith]
  | .boolean _ => by simp only [renderWith]
  | .null => by simp only [renderWith]
  | .arr xs => by
      simp only [renderWith]
      have hmap : xs.attach.map (fun x => renderWith r₁ x.val)
          = xs.attach.map (fun x => renderWith r₂ x.val) := by
        apply List.map_congr_left
        intro a _
        exact renderWith_congr r₁ r₂ h₁ h₂ a.val
      rw [hmap]
  | .structObj l => by
      simp only [renderWith]
      have hmap : l.attach.map (fun kv => "\x22" ++ kv.val.1 ++ "\x22:" ++ renderWith r₁ kv.val.2)
          = l.attach.map (fun kv => "\x22" ++ kv.val.1 ++ "\x22:" ++ renderWith r₂ kv.val.2) := by
        apply List.map_congr_left
        intro a _
        rw [renderWith_congr r₁ r₂ h₁ h₂ a.val.2]
      rw [hmap]
  | .mapObj l => by
      simp only [renderWith]
      have hmap : l.attach.map (fun kv => "\x22" ++ kv.val.1 ++ "\x22:" ++ renderWith r₁ kv.val.2)
          = l.attach.map (fun kv => "\x22" ++ kv.val.1 ++ "\x22:" ++ renderWith r₂ kv.val.2) := by
        apply List.map_congr_left
        intro a _
        rw [renderWith_congr r₁ r₂ h₁ h₂ a.val.2]
      rw [hmap]
      rw [sortStrings_eq_of_perm
        ((h₁ _).trans (h₂ (l.attach.map
          (fun kv => "\x22" ++ kv.val.1 ++ "\x22:" ++ renderWith r₂ kv.val.2))).symm)]
termination_by v => sizeOf v
decreasing_by
  · have hm := List.sizeOf_lt_of_mem a.property
    simp only [JVal.arr.sizeOf_spec]
    omega
  · rcases a with ⟨⟨x, y⟩, hmem⟩
    have hm := List.sizeOf_lt_of_mem hmem
    simp only [Prod.mk.sizeOf_spec, JVal.structObj.sizeOf_spec] at hm ⊢
    omega
  · rcases a with ⟨⟨x, y⟩, hmem⟩
    have hm := List.sizeOf_lt_of_mem hmem
    simp only [Prod.mk.sizeOf_spec, JVal.mapObj.sizeOf_spec] at hm ⊢
    omega

/-! ### Characterizations of the assembler's folds -/

/-- The resource blocks of a block list. -/
def resourceBlocks (blocks : List Block) : List Block :=
  blocks.filter (fun b => b.kind == "resource")

/-- The provider blocks of a block list. -/
def providerBlocks (blocks : List Block) : List Block :=
  blocks.filter (fun b => b.kind == "provider")

/-- The module-nested resource blocks of a block list. -/
def nestedResourceBlocks (blocks : List Block) : List Block :=
  (resourceBlocks blocks).filter (fun b => b.hasModuleBlock)

/-- The root-level (non-nested) resource blocks of a block list. -/
def rootResourceBlocks (blocks : List Block) : List Block :=
  (resourceBlocks blocks).filter (fun b => !b.hasModuleBlock)

/-- The default-provider-key accumulation of pass 1 for one block. -/
def providerKeyStep (k : String) (b : Block) : String :=
  if b.kind == "provider" then (if k == "" then providerEffName b else k) else k

/-- The module's default provider key, as pass 1 computes it. -/
def defaultProviderKey (module : Module) : String :=
  module.blocks.foldl providerKeyStep ""

/-- The provider-config map update of pass 1 for one provider block. -/
def providerConfigStep (pc : GoMap ProviderConfig) (b : Block) : GoMap ProviderConfig :=
  goInsert pc (providerEffName b) (providerConfigEntry b)

/-- The module-calls map update of pass 2 for one nested resource block. -/
def moduleCallsStep (mcs : GoMap ModuleCall) (b : Block) : GoMap ModuleCall :=
  let modCall :=
    match goLookup mcs b.moduleName with
    | some mc => mc
    | none => { source := b.moduleSource, module := { resources := [] } }
  goInsert mcs b.moduleName
    { modCall with module := { resources := modCall.module.resources ++ [nestedResourceData b] } }

theorem providerStep_fst_configuration_providerConfig (acc : PlanSchema × String) (b : Block) :
    (providerStep acc b).1.configuration.providerConfig
      = if b.kind == "provider" then providerConfigStep acc.1.configuration.providerConfig b
        else acc.1.configuration.providerConfig := by
  by_cases hb : b.kind == "provider" <;>
    simp [providerStep, providerConfigStep, hb]

theorem providerStep_snd (acc : PlanSchema × String) (b : Block) :
    (providerStep acc b).2 = providerKeyStep acc.2 b := by
  by_cases hb : b.kind == "provider" <;> simp [providerStep, providerKeyStep, hb]

/-- Pass 1 only touches the provider-config map and the provider key. -/
theorem providerStep_fst_other (acc : PlanSchema × String) (b : Block) :
    (providerStep acc b).1.resourceChanges = acc.1.resourceChanges
  ∧ (providerStep acc b).1.plannedValues = acc.1.plannedValues
  ∧ (providerStep acc b).1.configuration.rootModule = acc.1.configuration.rootModule
  ∧ (providerStep acc b).1.formatVersion = acc.1.formatVersion
  ∧ (providerStep acc b).1.terraformVersion = acc.1.terraformVersion := by
  by_cases hb : b.kind == "provider" <;> simp [providerStep, hb]

theorem providerPass_foldl_snd :
    ∀ (blocks : List Block) (acc : PlanSchema × String),
      (blocks.foldl providerStep acc).2 = blocks.foldl providerKeyStep acc.2
  | [], acc => rfl
  | b :: rest, acc => by
      rw [List.foldl_cons, List.foldl_cons, providerPass_foldl_snd rest _, providerStep_snd]

theorem providerPass_foldl_providerConfig :
    ∀ (blocks : List Block) (acc : PlanSchema × String),
      (blocks.foldl providerStep acc).1.configuration.providerConfig
        = (providerBlocks blocks).foldl providerConfigStep acc.1.configuration.providerConfig
  | [], acc => rfl
  | b :: rest, acc => by
      rw [List.foldl_cons, providerPass_foldl_providerConfig rest _,
        providerStep_fst_configuration_providerConfig]
      by_cases hb : b.kind == "provider" <;>
        simp [providerBlocks, List.filter_cons, hb]

theorem providerPass_foldl_other :
    ∀ (blocks : List Block) (acc : PlanSchema × String),
      (blocks.foldl providerStep acc).1.resourceChanges = acc.1.resourceChanges
    ∧ (blocks.foldl providerStep acc).1.plannedValues = acc.1.plannedValues
    ∧ (blocks.foldl providerStep acc).1.configuration.rootModule = acc.1.configuration.rootModule
    ∧ (blocks.foldl providerStep acc).1.formatVersion = acc.1.formatVersion
    ∧ (blocks.foldl providerStep acc).1.terraformVersion = acc.1.terraformVersion
  | [], acc => ⟨rfl, rfl, rfl, rfl, rfl⟩
  | b :: rest, acc => by
      have hstep := providerStep_fst_other acc b
      have hrest := providerPass_foldl_other rest (providerStep acc b)
      rw [List.foldl_cons]
      exact ⟨hrest.1.trans hstep.1,
             hrest.2.1.trans hstep.2.1,
             hrest.2.2.1.trans hstep.2.2.1,
             hrest.2.2.2.1.trans hstep.2.2.2.1,
             hrest.2.2.2.2.trans hstep.2.2.2.2⟩

theorem processResourceBlock_resourceChanges (k : String) (sch : PlanSchema) (b : Block) :
    (processResourceBlock k sch b).resourceChanges
      = sch.resourceChanges ++ [resourceChangeOf b] := by
  by_cases hb : b.hasModuleBlock <;> simp [processResourceBlock, hb]

theorem processResourceBlock_plannedRoot (k : String) (sch : PlanSchema) (b : Block) :
    (processResourceBlock k sch b).plannedValues.rootModule.resources
      = sch.plannedValues.rootModule.resources
          ++ (if b.hasModuleBlock then [] else [resourceJSONOf b]) := by
  by_cases hb : b.hasModuleBlock <;> simp [processResourceBlock, hb]

theorem processResourceBlock_childModules (k : String) (sch : PlanSchema) (b : Block) :
    (processResourceBlock k sch b).plannedValues.rootModule.childModules
      = (if b.hasModuleBlock then
          appendToChildModule sch.plannedValues.rootModule.childModules (resourceJSONOf b)
        else sch.plannedValues.rootModule.childModules) := by
  by_cases hb : b.hasModuleBlock <;> simp [processResourceBlock, hb]

theorem processResourceBlock_configRoot (k : String) (sch : PlanSchema) (b : Block) :
    (processResourceBlock k sch b).configuration.rootModule.resources
      = sch.configuration.rootModule.resources
          ++ (if b.hasModuleBlock then []
              else [rootResourceData (effectiveProviderKey k b) b]) := by
  by_cases hb : b.hasModuleBlock <;> simp [processResourceBlock, hb]

theorem processResourceBlock_moduleCalls (k : String) (sch : PlanSchema) (b : Block) :
    (processResourceBlock k sch b).configuration.rootModule.moduleCalls
      = (if b.hasModuleBlock then
          moduleCallsStep sch.configuration.rootModule.moduleCalls b
        else sch.configuration.rootModule.moduleCalls) := by
  by_cases hb : b.hasModuleBlock <;> simp [processResourceBlock, moduleCallsStep, hb]

theorem processResourceBlock_providerConfig (k : String) (sch : PlanSchema) (b : Block) :
    (processResourceBlock k sch b).configuration.providerConfig
      = sch.configuration.providerConfig := by
  by_cases hb : b.hasModuleBlock <;> simp [processResourceBlock, hb]

theorem resourceStep_resourceChanges (k : String) (sch : PlanSchema) (b : Block) :
    (resourceStep k sch b).resourceChanges
      = sch.resourceChanges
          ++ (if b.kind == "resource" then [resourceChangeOf b] else []) := by
  by_cases hb : b.kind == "resource" <;>
    simp [resourceStep, hb, processResourceBlock_resourceChanges]

theorem resourceStep_plannedRoot (k : String) (sch : PlanSchema) (b : Block) :
    (resourceStep k sch b).plannedValues.rootModule.resources
      = sch.plannedValues.rootModule.resources
          ++ (if b.kind == "resource" && !b.hasModuleBlock then [resourceJSONOf b] else []) := by
  by_cases hb : b.kind == "resource"
  · by_cases hm : b.hasModuleBlock <;>
      simp [resourceStep, hb, hm, processResourceBlock_plannedRoot]
  · simp [resourceStep, hb]

theorem resourceStep_childModules (k : String) (sch : PlanSchema) (b : Block) :
    (resourceStep k sch b).plannedValues.rootModule.childModules
      = (if b.kind == "resource" && b.hasModuleBlock then
          appendToChildModule sch.plannedValues.rootModule.childModules (resourceJSONOf b)
        else sch.plannedValues.rootModule.childModules) := by
  by_cases hb : b.kind == "resource"
  · by_cases hm : b.hasModuleBlock <;>
      simp [resourceStep, hb, hm, processResourceBlock_childModules]
  · simp [resourceStep, hb]

theorem resourceStep_configRoot (k : String) (sch : PlanSchema) (b : Block) :
    (resourceStep k sch b).configuration.rootModule.resources
      = sch.configuration.rootModule.resources
          ++ (if b.kind == "resource" && !b.hasModuleBlock then
                [rootResourceData (effectiveProviderKey k b) b]
              else []) := by
  by_cases hb : b.kind == "resource"
  · by_cases hm : b.hasModuleBlock <;>
      simp [resourceStep, hb, hm, processResourceBlock_configRoot]
  · simp [resourceStep, hb]

theorem resourceStep_moduleCalls (k : String) (sch : PlanSchema) (b : Block) :
    (resourceStep k sch b).configuration.rootModule.moduleCalls
      = (if b.kind == "resource" && b.hasModuleBlock then
          moduleCallsStep sch.configuration.rootModule.moduleCalls b
        else sch.configuration.rootModule.moduleCalls) := by
  by_cases hb : b.kind == "resource"
  · by_cases hm : b.hasModuleBlock <;>
      simp [resourceStep, hb, hm, processResourceBlock_moduleCalls]
  · simp [resourceStep, hb]

theorem resourceStep_providerConfig (k : String) (sch : PlanSchema) (b : Block) :
    (resourceStep k sch b).configuration.providerConfig
      = sch.configuration.providerConfig := by
  by_cases hb : b.kind == "resource" <;>
    simp [resourceStep, hb, processResourceBlock_providerConfig]

theorem pass2_foldl_resourceChanges (k : String) :
    ∀ (blocks : List Block) (sch : PlanSchema),
      (blocks.foldl (resourceStep k) sch).resourceChanges
        = sch.resourceChanges ++ (resourceBlocks blocks).map resourceChangeOf
  | [], sch => by simp [resourceBlocks]
  | b :: rest, sch => by
      rw [List.foldl_cons, pass2_foldl_resourceChanges k rest _, resourceStep_resourceChanges]
      by_cases hb : b.kind == "resource" <;>
        simp [resourceBlocks, List.filter_cons, hb]

theorem pass2_foldl_plannedRoot (k : String) :
    ∀ (blocks : List Block) (sch : PlanSchema),
      (blocks.foldl (resourceStep k) sch).plannedValues.rootModule.resources
        = sch.plannedValues.rootModule.resources
            ++ (rootResourceBlocks blocks).map resourceJSONOf
  | [], sch => by simp [rootResourceBlocks, resourceBlocks]
  | b :: rest, sch => by
      rw [List.foldl_cons, pass2_foldl_plannedRoot k rest _, resourceStep_plannedRoot]
      by_cases hb : b.kind == "resource"
      · by_cases hm : b.hasModuleBlock <;>
          simp [rootResourceBlocks, resourceBlocks, List.filter_cons, hb, hm]
      · simp [rootResourceBlocks, resourceBlocks, List.filter_cons, hb]

theorem pass2_foldl_childModules (k : String) :
    ∀ (blocks : List Block) (sch : PlanSchema),
      (blocks.foldl (resourceStep k) sch).plannedValues.rootModule.childModules
        = ((nestedResourceBlocks blocks).map resourceJSONOf).foldl appendToChildModule
            sch.plannedValues.rootModule.childModules
  | [], sch => by simp [nestedResourceBlocks, resourceBlocks]
  | b :: rest, sch => by
      rw [List.foldl_cons, pass2_foldl_childModules k rest _, resourceStep_childModules]
      by_cases hb : b.kind == "resource"
      · by_cases hm : b.hasModuleBlock <;>
          simp [nestedResourceBlocks, resourceBlocks, List.filter_cons, hb, hm]
      · simp [nestedResourceBlocks, resourceBlocks, List.filter_cons, hb]

theorem pass2_foldl_configRoot (k : String) :
    ∀ (blocks : List Block) (sch : PlanSchema),
      (blocks.foldl (resourceStep k) sch).configuration.rootModule.resources
        = sch.configuration.rootModule.resources
            ++ (rootResourceBlocks blocks).map
                (fun b => rootResourceData (effectiveProviderKey k b) b)
  | [], sch => by simp [rootResourceBlocks, resourceBlocks]
  | b :: rest, sch => by
      rw [List.foldl_cons, pass2_foldl_configRoot k rest _, resourceStep_configRoot]
      by_cases hb : b.kind == "resource"
      · by_cases hm : b.hasModuleBlock <;>
          simp [rootResourceBlocks, resourceBlocks, List.filter_cons, hb, hm]
      · simp [rootResourceBlocks, resourceBlocks, List.filter_cons, hb]

theorem pass2_foldl_moduleCalls (k : String) :
    ∀ (blocks : List Block) (sch : PlanSchema),
      (blocks.foldl (resourceStep k) sch).configuration.rootModule.moduleCalls
        = (nestedResourceBlocks blocks).foldl moduleCallsStep
            sch.configuration.rootModule.moduleCalls
  | [], sch => by simp [nestedResourceBlocks, resourceBlocks]
  | b :: rest, sch => by
      rw [List.foldl_cons, pass2_foldl_moduleCalls k rest _, resourceStep_moduleCalls]
      by_cases hb : b.kind == "resource"
      · by_cases hm : b.hasModuleBlock <;>
          simp [nestedResourceBlocks, resourceBlocks, List.filter_cons, hb, hm]
      · simp [nestedResourceBlocks, resourceBlocks, List.filter_cons, hb]

theorem pass2_foldl_providerConfig (k : String) :
    ∀ (blocks : List Block) (sch : PlanSchema),
      (blocks.foldl (resourceStep k) sch).configuration.providerConfig
        = sch.configuration.providerConfig
  | [], sch => rfl
  | b :: rest, sch => by
      rw [List.foldl_cons, pass2_foldl_providerConfig k rest _, resourceStep_providerConfig]

theorem foldl_appendToChildModule (rs : List ResourceJSON) :
    ∀ (res : List ResourceJSON),
      rs.foldl appendToChildModule [{ resources := res }] = [{ resources := res ++ rs }] := by
  induction rs with
  | nil => intro res; simp
  | cons r rest ih =>
      intro res
      rw [List.foldl_cons]
      show rest.foldl appendToChildModule [{ resources := res ++ [r] }]
        = [{ resources := res ++ r :: rest }]
      rw [ih (res ++ [r])]
      simp

theorem processModule_resourceChanges (sch : PlanSchema) (m : Module) :
    (processModule sch m).resourceChanges
      = sch.resourceChanges ++ (resourceBlocks m.blocks).map resourceChangeOf := by
  unfold processModule providerPass
  rw [pass2_foldl_resourceChanges, (providerPass_foldl_other m.blocks (sch, "")).1]

theorem processModule_plannedRoot (sch : PlanSchema) (m : Module) :
    (processModule sch m).plannedValues.rootModule.resources
      = sch.plannedValues.rootModule.resources
          ++ (rootResourceBlocks m.blocks).map resourceJSONOf := by
  unfold processModule providerPass
  rw [pass2_foldl_plannedRoot, (providerPass_foldl_other m.blocks (sch, "")).2.1]

theorem processModule_childModules (sch : PlanSchema) (m : Module) :
    (processModule sch m).plannedValues.rootModule.childModules
      = ((nestedResourceBlocks m.blocks).map resourceJSONOf).foldl appendToChildModule
          sch.plannedValues.rootModule.childModules := by
  unfold processModule providerPass
  rw [pass2_foldl_childModules, (providerPass_foldl_other m.blocks (sch, "")).2.1]

theorem processModule_configRoot (sch : PlanSchema) (m : Module) :
    (processModule sch m).configuration.rootModule.resources
      = sch.configuration.rootModule.resources
          ++ (rootResourceBlocks m.blocks).map
              (fun b => rootResourceData (effectiveProviderKey (defaultProviderKey m) b) b) := by
  unfold processModule providerPass
  rw [pass2_foldl_configRoot, (providerPass_foldl_other m.blocks (sch, "")).2.2.1,
    providerPass_foldl_snd]
  rfl

theorem processModule_moduleCalls (sch : PlanSchema) (m : Module) :
    (processModule sch m).configuration.rootModule.moduleCalls
      = (nestedResourceBlocks m.blocks).foldl moduleCallsStep
          sch.configuration.rootModule.moduleCalls := by
  unfold processModule providerPass
  rw [pass2_foldl_moduleCalls, (providerPass_foldl_other m.blocks (sch, "")).2.2.1]

theorem processModule_providerConfig (sch : PlanSchema) (m : Module) :
    (processModule sch m).configuration.providerConfig
      = (providerBlocks m.blocks).foldl providerConfigStep sch.configuration.providerConfig := by
  unfold processModule providerPass
  rw [pass2_foldl_providerConfig, providerPass_foldl_providerConfig]

theorem modules_foldl_resourceChanges :
    ∀ (ms : List Module) (sch : PlanSchema),
      (ms.foldl processModule sch).resourceChanges
        = sch.resourceChanges
            ++ ms.flatMap (fun m => (resourceBlocks m.blocks).map resourceChangeOf)
  | [], sch => by simp
  | m :: rest, sch => by
      rw [List.foldl_cons, modules_foldl_resourceChanges rest _,
        processModule_resourceChanges]
      simp

theorem modules_foldl_plannedRoot :
    ∀ (ms : List Module) (sch : PlanSchema),
      (ms.foldl processModule sch).plannedValues.rootModule.resources
        = sch.plannedValues.rootModule.resources
            ++ ms.flatMap (fun m => (rootResourceBlocks m.blocks).map resourceJSONOf)
  | [], sch => by simp
  | m :: rest, sch => by
      rw [List.foldl_cons, modules_foldl_plannedRoot rest _, processModule_plannedRoot]
      simp

theorem modules_foldl_childModules :
    ∀ (ms : List Module) (sch : PlanSchema),
      (ms.foldl processModule sch).plannedValues.rootModule.childModules
        = (ms.flatMap (fun m => (nestedResourceBlocks m.blocks).map resourceJSONOf)).foldl
            appendToChildModule sch.plannedValues.rootModule.childModules
  | [], sch => by simp
  | m :: rest, sch => by
      rw [List.foldl_cons, modules_foldl_childModules rest _, processModule_childModules]
      rw [List.flatMap_cons, List.foldl_append]

theorem modules_foldl_configRoot :
    ∀ (ms : List Module) (sch : PlanSchema),
      (ms.foldl processModule sch).configuration.rootModule.resources
        = sch.configuration.rootModule.resources
            ++ ms.flatMap (fun m => (rootResourceBlocks m.blocks).map
                (fun b => rootResourceData (effectiveProviderKey (defaultProviderKey m) b) b))
  | [], sch => by simp
  | m :: rest, sch => by
      rw [List.foldl_cons, modules_foldl_configRoot rest _, processModule_configRoot]
      simp

theorem modules_foldl_moduleCalls :
    ∀ (ms : List Module) (sch : PlanSchema),
      (ms.foldl processModule sch).configuration.rootModule.moduleCalls
        = (ms.flatMap (fun m => nestedResourceBlocks m.blocks)).foldl
            moduleCallsStep sch.configuration.rootModule.moduleCalls
  | [], sch => by simp
  | m :: rest, sch => by
      rw [List.foldl_cons, modules_foldl_moduleCalls rest _, processModule_moduleCalls]
      rw [List.flatMap_cons, List.foldl_append]

theorem modules_foldl_providerConfig :
    ∀ (ms : List Module) (sch : PlanSchema),
      (ms.foldl processModule sch).configuration.providerConfig
        = (ms.flatMap (fun m => providerBlocks m.blocks)).foldl
            providerConfigStep sch.configuration.providerConfig
  | [], sch => by simp
  | m :: rest, sch => by
      rw [List.foldl_cons, modules_foldl_providerConfig rest _, processModule_providerConfig]
      rw [List.flatMap_cons, List.foldl_append]

/-- `resource_changes` of the output: one change record per resource block,
in module and block order. -/
theorem modulesToPlanJSON_resourceChanges (ms : List Module) :
    (modulesToPlanJSON ms).resourceChanges
      = ms.flatMap (fun m => (resourceBlocks m.blocks).map resourceChangeOf) := by
  unfold modulesToPlanJSON
  rw [modules_foldl_resourceChanges]
  rfl

/-- `planned_values.root_module.resources` of the output: one planned
record per root-level resource block. -/
theorem modulesToPlanJSON_plannedRoot (ms : List Module) :
    (modulesToPlanJSON ms).plannedValues.rootModule.resources
      = ms.flatMap (fun m => (rootResourceBlocks m.blocks).map resourceJSONOf) := by
  unfold modulesToPlanJSON
  rw [modules_foldl_plannedRoot]
  rfl

/-- `planned_values.root_module.child_modules` of the output: exactly one
synthetic bucket holding one planned record per nested resource block. -/
theorem modulesToPlanJSON_childModules (ms : List Module) :
    (modulesToPlanJSON ms).plannedValues.rootModule.childModules
      = [{ resources :=
            ms.flatMap (fun m => (nestedResourceBlocks m.blocks).map resourceJSONOf) }] := by
  unfold modulesToPlanJSON
  rw [modules_foldl_childModules]
  show _ = [{ resources :=
      [] ++ ms.flatMap (fun m => (nestedResourceBlocks m.blocks).map resourceJSONOf) }]
  exact foldl_appendToChildModule _ []

/-- `configuration.root_module.resources` of the output: one declaration per
root-level resource block, keyed by its effective provider key. -/
theorem modulesToPlanJSON_configRoot (ms : List Module) :
    (modulesToPlanJSON ms).configuration.rootModule.resources
      = ms.flatMap (fun m => (rootResourceBlocks m.blocks).map
          (fun b => rootResourceData (effectiveProviderKey (defaultProviderKey m) b) b)) := by
  unfold modulesToPlanJSON
  rw [modules_foldl_configRoot]
  rfl

/-- `configuration.root_module.module_calls` of the output: the fold of the
module-call update over all nested resource blocks. -/
theorem modulesToPlanJSON_moduleCalls (ms : List Module) :
    (modulesToPlanJSON ms).configuration.rootModule.moduleCalls
      = (ms.flatMap (fun m => nestedResourceBlocks m.blocks)).foldl moduleCallsStep [] := by
  unfold modulesToPlanJSON
  rw [modules_foldl_moduleCalls]
  rfl

/-- `configuration.provider_config` of the output: the fold of the
insert-or-overwrite update over all provider blocks. -/
theorem modulesToPlanJSON_providerConfig (ms : List Module) :
    (modulesToPlanJSON ms).configuration.providerConfig
      = (ms.flatMap (fun m => providerBlocks m.blocks)).foldl providerConfigStep [] := by
  unfold modulesToPlanJSON
  rw [modules_foldl_providerConfig]
  rfl

/-- A lookup misses exactly when the key is not among the map's keys. -/
theorem goLookup_eq_none_of_not_mem_keys {α : Type} (m : GoMap α) (k : String)
    (h : k ∉ m.map Prod.fst) : goLookup m k = none := by
  rw [goLookup_eq_none_iff]
  intro kv hkv hbeq
  exact h (List.mem_map.mpr ⟨kv, hkv, by simpa using hbeq⟩)

/-- `goInsert` keeps the key list duplicate-free. -/
theorem goInsert_keys_nodup {α : Type} (m : GoMap α) (k : String) (v : α)
    (h : (m.map Prod.fst).Nodup) : ((goInsert m k v).map Prod.fst).Nodup := by
  unfold goInsert
  by_cases hm : m.any (fun kv => kv.1 == k)
  · rw [if_pos hm]
    have hsame : (m.map (fun kv => if kv.1 == k then (k, v) else kv)).map Prod.fst
        = m.map Prod.fst := by
      rw [List.map_map]
      apply List.map_congr_left
      intro kv _
      by_cases hk : kv.1 == k
      · simp only [Function.comp]
        rw [if_pos hk]
        have : kv.1 = k := by simpa using hk
        simp [this]
      · simp only [Function.comp]
        rw [if_neg hk]
    rw [hsame]
    exact h
  · rw [if_neg hm, List.map_append]
    simp only [List.map_cons, List.map_nil]
    rw [List.nodup_append]
    refine ⟨h, List.nodup_singleton k, ?_⟩
    intro x hx
    simp only [List.mem_singleton]
    intro hk
    subst hk
    rcases List.mem_map.mp hx with ⟨kv, hkv, hfst⟩
    exact hm (List.any_eq_true.mpr ⟨kv, hkv, by simp [hfst]⟩)

/-- Folding inserts over any list keeps the key list duplicate-free. -/
theorem foldl_goInsert_keys_nodup {α β : Type} (f : β → String) (g : β → α) :
    ∀ (l : List β) (m : GoMap α), (m.map Prod.fst).Nodup →
      ((l.foldl (fun m x => goInsert m (f x) (g x)) m).map Prod.fst).Nodup
  | [], m, h => h
  | x :: rest, m, h => by
      rw [List.foldl_cons]
      exact foldl_goInsert_keys_nodup f g rest _ (goInsert_keys_nodup _ _ _ h)

/-- Folding a keyed image of a duplicate-free association list into a map:
keys present in the source list end at their (unique) image, others keep
their previous binding. -/
theorem foldl_goInsert_image_lookup {α β : Type} (f : β → α) :
    ∀ (ce : GoMap β) (ev : GoMap α) (k : String), (ce.map Prod.fst).Nodup →
      goLookup (ce.foldl (fun ev nv => goInsert ev nv.1 (f nv.2)) ev) k
        = match goLookup ce k with
          | some v => some (f v)
          | none => goLookup ev k
  | [], ev, k, _ => by simp [goLookup]
  | (k₀, v₀) :: ce, ev, k, hnd => by
      rw [List.foldl_cons]
      have hnd' : (ce.map Prod.fst).Nodup := (List.nodup_cons.mp hnd).2
      have hk₀ : k₀ ∉ ce.map Prod.fst := (List.nodup_cons.mp hnd).1
      by_cases hk : k₀ == k
      · have hkeq : k₀ = k := by simpa using hk
        subst hkeq
        rw [foldl_goInsert_image_lookup f ce _ k₀ hnd']
        rw [goLookup_eq_none_of_not_mem_keys ce k₀ hk₀]
        rw [goLookup_cons]
        simp [goLookup_goInsert_self]
      · have hne : k ≠ k₀ := fun hc => hk (by simp [hc])
        rw [foldl_goInsert_image_lookup f ce _ k hnd']
        rw [goLookup_cons, if_neg hk, goLookup_goInsert_ne _ _ _ _ hne]

/-- A block's own value container is never the nil map: every block carries
an evaluated attribute-value map, so the attribute marshaller always
returns a map for it. -/
theorem marshalAttributeValues_blockValues_isSome (t : String) (b : Block) :
    ∃ m : Obj, marshalAttributeValues t b.blockValues = some m := by
  exact ⟨_, rfl⟩

/-- A filter and its negation partition a list's length. -/
theorem length_filter_partition {α : Type} (p : α → Bool) (l : List α) :
    (l.filter p).length + (l.filter (fun a => !p a)).length = l.length := by
  induction l with
  | nil => simp
  | cons a l ih => by_cases h : p a <;> simp [List.filter_cons, h] <;> omega

/-- The total number of resource blocks across all input modules. -/
def totalResourceBlockCount (ms : List Module) : Nat :=
  (ms.map (fun m => (resourceBlocks m.blocks).length)).sum

/-- C1: every resource block produces exactly one planned-resource entry
(in the root list or the single child-module bucket) and exactly one
resource-change entry, so `resource_changes` has exactly as many entries as
there are resource blocks across all modules, and the planned lists
together account for exactly the same number. -/
theorem claimC1_resource_count_invariant (ms : List Module) :
    (modulesToPlanJSON ms).resourceChanges.length = totalResourceBlockCount ms
  ∧ (modulesToPlanJSON ms).plannedValues.rootModule.childModules.length = 1
  ∧ (modulesToPlanJSON ms).plannedValues.rootModule.resources.length
      + (((modulesToPlanJSON ms).plannedValues.rootModule.childModules.headD
            { resources := [] }).resources).length
      = totalResourceBlockCount ms := by
  refine ⟨?_, ?_, ?_⟩
  · rw [modulesToPlanJSON_resourceChanges, List.length_flatMap]
    unfold totalResourceBlockCount
    congr 1
    apply List.map_congr_left
    intro m _
    simp [Function.comp]
  · rw [modulesToPlanJSON_childModules]
    rfl
  · rw [modulesToPlanJSON_plannedRoot, modulesToPlanJSON_childModules, List.length_flatMap]
    show (List.map (List.length ∘ fun m => (rootResourceBlocks m.blocks).map resourceJSONOf) ms).sum
        + (ms.flatMap fun m => (nestedResourceBlocks m.blocks).map resourceJSONOf).length
        = totalResourceBlockCount ms
    rw [List.length_flatMap]
    unfold totalResourceBlockCount
    have h1 : ∀ m : Module,
        (List.length ∘ fun m => (rootResourceBlocks m.blocks).map resourceJSONOf) m
          + (List.length ∘ fun m => (nestedResourceBlocks m.blocks).map resourceJSONOf) m
          = (resourceBlocks m.blocks).length := by
      intro m
      simp only [Function.comp, List.length_map]
      unfold rootResourceBlocks nestedResourceBlocks
      rw [Nat.add_comm]
      exact length_filter_partition _ _
    calc (List.map (List.length ∘ fun m => (rootResourceBlocks m.blocks).map resourceJSONOf) ms).sum
          + (List.map (List.length ∘ fun m => (nestedResourceBlocks m.blocks).map resourceJSONOf) ms).sum
        = (List.map (fun m =>
            (List.length ∘ fun m => (rootResourceBlocks m.blocks).map resourceJSONOf) m
              + (List.length ∘ fun m => (nestedResourceBlocks m.blocks).map resourceJSONOf) m) ms).sum := by
          rw [List.sum_map_add]
      _ = (ms.map (fun m => (resourceBlocks m.blocks).length)).sum := by
          congr 1
          apply List.map_congr_left
          intro m _
          exact h1 m

/-- C10: a block's evaluated attribute-value container is always a map, so
the attribute marshaller never returns the nil-map sentinel for a block's
own values and `marshalBlock`'s in-place insertion of child-kind keys never
writes into a nil map: the write-to-nil-map panic branch is unreachable. -/
theorem claimC10_nil_map_write_unreachable (b : Block) :
    ∃ m : Obj, marshalAttributeValues b.kind b.blockValues = some m
      ∧ resourceJsonValues b = marshalBlock b m :=
  ⟨_, rfl, rfl⟩

/-- The last element of a list satisfying a predicate, as a left fold (the
way repeated Go map overwrites keep the last write). -/
def lastWith {β : Type} (p : β → Bool) (bs : List β) : Option β :=
  bs.foldl (fun r b => if p b then some b else r) none

theorem lastWith_from {β : Type} (p : β → Bool) :
    ∀ (bs : List β) (r : Option β),
      bs.foldl (fun r b => if p b then some b else r) r
        = match lastWith p bs with
          | some x => some x
          | none => r
  | [], r => by simp [lastWith]
  | b :: bs, r => by
      by_cases hp : p b
      · rw [List.foldl_cons, if_pos hp]
        show bs.foldl _ (some b) = _
        rw [lastWith_from p bs (some b)]
        have : lastWith p (b :: bs) = bs.foldl (fun r b => if p b then some b else r) (some b) := by
          simp [lastWith, hp]
        rw [this, lastWith_from p bs (some b)]
        cases lastWith p bs <;> rfl
      · rw [List.foldl_cons, if_neg hp]
        have : lastWith p (b :: bs) = lastWith p bs := by
          simp [lastWith, hp]
        rw [this, lastWith_from p bs r]

/-- The provider-config map after pass 1: each name holds the entry of the
last provider block with that effective name (later blocks overwrite
earlier ones). -/
theorem providerConfig_foldl_lookup :
    ∀ (bs : List Block) (acc : GoMap ProviderConfig) (n : String),
      goLookup (bs.foldl providerConfigStep acc) n
        = match lastWith (fun b => providerEffName b == n) bs with
          | some b => some (providerConfigEntry b)
          | none => goLookup acc n
  | [], acc, n => by simp [lastWith]
  | b :: bs, acc, n => by
      rw [List.foldl_cons]
      have hlw : lastWith (fun b' => providerEffName b' == n) (b :: bs)
          = match lastWith (fun b' => providerEffName b' == n) bs with
            | some x => some x
            | none => if providerEffName b == n then some b else none := by
        show bs.foldl _ (if providerEffName b == n then some b else none) = _
        by_cases hp : providerEffName b == n
        · rw [if_pos hp, lastWith_from]
          cases lastWith (fun b' => providerEffName b' == n) bs <;> rfl
        · rw [if_neg hp, lastWith_from]
          cases lastWith (fun b' => providerEffName b' == n) bs <;> rfl
      rw [providerConfig_foldl_lookup bs _ n, hlw]
      by_cases hp : providerEffName b == n
      · have heq : providerEffName b = n := by simpa using hp
        cases hlast : lastWith (fun b' => providerEffName b' == n) bs
        · simp only [hlast, hp]
          unfold providerConfigStep
          rw [heq, goLookup_goInsert_self]
          simp [if_pos hp]
        · simp only [hlast]
      · cases hlast : lastWith (fun b' => providerEffName b' == n) bs
        · simp only [hlast, hp]
          unfold providerConfigStep
          have hne : n ≠ providerEffName b := fun hc => hp (by simp [hc])
          rw [goLookup_goInsert_ne _ _ _ _ hne]
          simp [hp]
        · simp only [hlast]

/-- A provider block whose `region` attribute is missing or not a string
records the empty region. -/
theorem providerRegion_eq_empty (b : Block)
    (hreg : match b.getAttribute "region" with
            | none => True
            | some a => ∀ s, a.value ≠ CtyVal.str s) :
    providerRegion b = "" := by
  unfold providerRegion
  cases hga : b.getAttribute "region" with
  | none => simp [attrValue]
  | some a =>
      rw [hga] at hreg
      simp only [attrValue]
      cases hv : a.value with
      | str s => exact absurd rfl (hv ▸ hreg s)
      | nilVal => rfl
      | nullVal => rfl
      | num n => rfl
      | boolean bb => rfl
      | obj es => rfl
      | badVal t => rfl

/-- C8: a provider block whose `region` attribute is missing or unreadable
as a string is recorded with `region.constant_value` equal to the empty
string (taking the last provider block of its effective name, since later
blocks overwrite), and that entry always serializes without error. -/
theorem claimC8_region_missing_or_unreadable (ms : List Module) (m : Module) (b : Block)
    (_hm : m ∈ ms) (_hb : b ∈ m.blocks) (_hkind : b.kind = "provider")
    (hreg : match b.getAttribute "region" with
            | none => True
            | some a => ∀ s, a.value ≠ CtyVal.str s)
    (hlast : lastWith (fun b' => providerEffName b' == providerEffName b)
        (ms.flatMap (fun m' => providerBlocks m'.blocks)) = some b) :
    goLookup (modulesToPlanJSON ms).configuration.providerConfig (providerEffName b)
      = some { name := providerEffName b
               expressions := [("region", .mapObj [("constant_value", .str "")])] }
  ∧ jvalValid (.mapObj [("region", JVal.mapObj [("constant_value", JVal.str "")])]) = true := by
  constructor
  · rw [modulesToPlanJSON_providerConfig, providerConfig_foldl_lookup, hlast]
    show some (providerConfigEntry b) = _
    unfold providerConfigEntry
    rw [providerRegion_eq_empty b hreg]
  · simp [jvalValid]

/-- A provider block whose `region` attribute holds a number, which cannot
be read as a string. -/
def provC8 : Block :=
  .mk "provider" "aws" "" [{ name := "region", value := .num 5, references := [] }]
    [] [] false "" "" "" "" "" ""

/-- A one-module input exercising the unreadable-region path. -/
def modC8 : Module := { blocks := [provC8] }

theorem claimC8_witness :
    goLookup (modulesToPlanJSON [modC8]).configuration.providerConfig (providerEffName provC8)
      = some { name := providerEffName provC8
               expressions := [("region", .mapObj [("constant_value", .str "")])] }
  ∧ jvalValid (.mapObj [("region", JVal.mapObj [("constant_value", JVal.str "")])]) = true :=
  claimC8_region_missing_or_unreadable [modC8] modC8 provC8
    (List.mem_singleton.mpr rfl)
    (List.mem_singleton.mpr rfl)
    rfl
    (show ∀ s, CtyVal.num 5 ≠ CtyVal.str s from fun _ h => by cases h)
    (by simp [lastWith, providerBlocks, provC8, modC8, Block.kind])

/-- Once the default provider key is non-empty, pass 1 never changes it. -/
theorem providerKeyStep_foldl_stable :
    ∀ (bs : List Block) (k : String), k ≠ "" → bs.foldl providerKeyStep k = k
  | [], _, _ => rfl
  | b :: bs, k, hk => by
      rw [List.foldl_cons]
      have hstep : providerKeyStep k b = k := by
        unfold providerKeyStep
        by_cases hb : b.kind == "provider" <;> simp [hb, hk]
      rw [hstep, providerKeyStep_foldl_stable bs k hk]

/-- The module's default provider key is the effective name of the first
provider block whose effective name is non-empty (a provider block with an
empty effective name re-assigns the still-empty key and decides nothing). -/
theorem defaultProviderKey_eq_find :
    ∀ (bs : List Block),
      bs.foldl providerKeyStep ""
        = match bs.find? (fun b => b.kind == "provider" && !(providerEffName b == "")) with
          | some b => providerEffName b
          | none => ""
  | [] => rfl
  | b :: bs => by
      rw [List.foldl_cons]
      by_cases hk : b.kind == "provider"
      · by_cases he : providerEffName b == ""
        · have heff : providerEffName b = "" := by simpa using he
          have hstep : providerKeyStep "" b = "" := by
            unfold providerKeyStep
            simp [hk, heff]
          have hfind : List.find? (fun b => b.kind == "provider" && !(providerEffName b == ""))
              (b :: bs) = List.find? (fun b => b.kind == "provider" && !(providerEffName b == "")) bs := by
            rw [List.find?_cons_of_neg]
            simp [hk, he]
          rw [hstep, hfind, defaultProviderKey_eq_find bs]
        · have hstep : providerKeyStep "" b = providerEffName b := by
            unfold providerKeyStep
            simp [hk]
          have hne : providerEffName b ≠ "" := fun hc => he (by simp [hc])
          have hfind : List.find? (fun b => b.kind == "provider" && !(providerEffName b == ""))
              (b :: bs) = some b := by
            rw [List.find?_cons_of_pos]
            simp [hk, he]
          rw [hstep, hfind, providerKeyStep_foldl_stable bs _ hne]
      · have hstep : providerKeyStep "" b = "" := by
          unfold providerKeyStep
          simp [hk]
        have hfind : List.find? (fun b => b.kind == "provider" && !(providerEffName b == ""))
            (b :: bs) = List.find? (fun b => b.kind == "provider" && !(providerEffName b == "")) bs := by
          rw [List.find?_cons_of_neg]
          simp [hk]
        rw [hstep, hfind, defaultProviderKey_eq_find bs]

/-- The effective provider key of a resource whose `provider` attribute is
absent or not a plain string is the module's default key. -/
theorem effectiveProviderKey_default (k : String) (b : Block)
    (hprov : match b.getAttribute "provider" with
             | none => True
             | some a => ∀ s, a.value ≠ CtyVal.str s) :
    effectiveProviderKey k b = k := by
  unfold effectiveProviderKey
  cases hga : b.getAttribute "provider" with
  | none => rfl
  | some a =>
      rw [hga] at hprov
      show (match a.value with
            | CtyVal.str s => s
            | _ => k) = k
      cases hv : a.value with
      | str s => exact absurd rfl (hv ▸ hprov s)
      | nilVal => rfl
      | nullVal => rfl
      | num n => rfl
      | boolean bb => rfl
      | obj es => rfl
      | badVal t => rfl

/-- C4 (amended): within each module the default provider key is the
effective name (alias value if present, else type label) of the first
provider block whose effective name is non-empty — not unconditionally of
the first provider block; that default is the recorded
`provider_config_key` of every root-level resource whose own `provider`
attribute is absent or not a plain string; and the provider-config map has
one entry per effective name, a later provider block overwriting an
earlier one of the same name. -/
theorem claimC4_default_provider_key_amended (ms : List Module) (m : Module) (b : Block)
    (hm : m ∈ ms) (hb : b ∈ m.blocks) (hkind : b.kind = "resource")
    (hroot : b.hasModuleBlock = false)
    (hprov : match b.getAttribute "provider" with
             | none => True
             | some a => ∀ s, a.value ≠ CtyVal.str s) :
    defaultProviderKey m
      = (match m.blocks.find? (fun b' => b'.kind == "provider" && !(providerEffName b' == "")) with
         | some b' => providerEffName b'
         | none => "")
  ∧ rootResourceData (defaultProviderKey m) b
      ∈ (modulesToPlanJSON ms).configuration.rootModule.resources
  ∧ ((modulesToPlanJSON ms).configuration.providerConfig.map Prod.fst).Nodup
  ∧ (∀ n, goLookup (modulesToPlanJSON ms).configuration.providerConfig n
        = match lastWith (fun b' => providerEffName b' == n)
            (ms.flatMap (fun m' => providerBlocks m'.blocks)) with
          | some b' => some (providerConfigEntry b')
          | none => none) := by
  refine ⟨defaultProviderKey_eq_find m.blocks, ?_, ?_, ?_⟩
  · rw [modulesToPlanJSON_configRoot]
    apply List.mem_flatMap.mpr
    refine ⟨m, hm, ?_⟩
    apply List.mem_map.mpr
    refine ⟨b, ?_, ?_⟩
    · unfold rootResourceBlocks resourceBlocks
      rw [List.mem_filter, List.mem_filter]
      exact ⟨⟨hb, by simp [hkind]⟩, by simp [hroot]⟩
    · rw [effectiveProviderKey_default _ _ hprov]
  · rw [modulesToPlanJSON_providerConfig]
    have : ∀ (bs : List Block) (pc : GoMap ProviderConfig),
        (pc.map Prod.fst).Nodup → ((bs.foldl providerConfigStep pc).map Prod.fst).Nodup := by
      intro bs
      induction bs with
      | nil => intro pc h; exact h
      | cons x rest ih =>
          intro pc h
          rw [List.foldl_cons]
          exact ih _ (goInsert_keys_nodup _ _ _ h)
    exact this _ [] List.nodup_nil
  · intro n
    rw [modulesToPlanJSON_providerConfig, providerConfig_foldl_lookup]
    cases lastWith (fun b' => providerEffName b' == n)
        (ms.flatMap (fun m' => providerBlocks m'.blocks)) <;> rfl

/-- First provider block of the counterexample module: its `alias`
attribute is present with value `""`, so its effective name is empty. -/
def provC4A : Block :=
  .mk "provider" "aws" "" [{ name := "alias", value := .str "", references := [] }]
    [] [] false "" "" "" "" "" ""

/-- Second provider block of the counterexample module. -/
def provC4B : Block :=
  .mk "provider" "google" "" [] [] [] false "" "" "" "" "" ""

/-- A root-level resource block with no `provider` attribute. -/
def resC4 : Block :=
  .mk "resource" "google_storage_bucket" "b" [] [] [] false "" "" ""
    "google_storage_bucket.b" "google_storage_bucket.b" "google"

/-- The counterexample module: the first provider block has an empty
effective name. -/
def modC4 : Module := { blocks := [provC4A, provC4B, resC4] }

/-- C4 counterexample: the first provider block encountered has alias value
`""`, so under the claim the module's default provider key — and hence the
recorded `provider_config_key` of the resource, whose own `provider`
attribute is absent — would be `""`; the code records `"google"`, the
effective name of the second provider block. -/
theorem claimC4_counterexample :
    modC4.blocks.head? = some provC4A
  ∧ provC4A.kind = "provider"
  ∧ provC4A.getAttribute "alias" = some { name := "alias", value := .str "", references := [] }
  ∧ providerEffName provC4A = ""
  ∧ ((modulesToPlanJSON [modC4]).configuration.rootModule.resources.map
      (fun d => d.providerConfigKey)) = ["google"]
  ∧ ("google" : String) ≠ "" := by
  refine ⟨rfl, rfl, rfl, rfl, ?_, by simp⟩
  rw [modulesToPlanJSON_configRoot]
  simp only [List.flatMap_cons, List.flatMap_nil, List.append_nil]
  rw [show rootResourceBlocks modC4.blocks = [resC4] from rfl]
  simp only [List.map_cons, List.map_map, List.map_nil]
  rfl

theorem claimC4_witness :
    (defaultProviderKey modC4
      = match modC4.blocks.find? (fun b' => b'.kind == "provider" && !(providerEffName b' == "")) with
        | some b' => providerEffName b'
        | none => "")
  ∧ rootResourceData (defaultProviderKey modC4) resC4
      ∈ (modulesToPlanJSON [modC4]).configuration.rootModule.resources
  ∧ ((modulesToPlanJSON [modC4]).configuration.providerConfig.map Prod.fst).Nodup
  ∧ (∀ n, goLookup (modulesToPlanJSON [modC4]).configuration.providerConfig n
        = match lastWith (fun b' => providerEffName b' == n)
            ([modC4].flatMap (fun m' => providerBlocks m'.blocks)) with
          | some b' => some (providerConfigEntry b')
          | none => none) :=
  claimC4_default_provider_key_amended [modC4] modC4 resC4
    (List.mem_singleton.mpr rfl)
    (by simp [modC4])
    rfl
    rfl
    trivial

/-- The module-calls map after processing blocks `bs` on top of an existing
entry `mc` under name `n`: the entry keeps its source and appends one
declaration per matching nested block. -/
theorem moduleCalls_foldl_lookup_some :
    ∀ (bs : List Block) (acc : GoMap ModuleCall) (n : String) (mc : ModuleCall),
      goLookup acc n = some mc →
      goLookup (bs.foldl moduleCallsStep acc) n
        = some { source := mc.source
                 module := { resources := mc.module.resources
                     ++ (bs.filter (fun b => b.moduleName == n)).map nestedResourceData } }
  | [], acc, n, mc, h => by simpa using h
  | b :: bs, acc, n, mc, h => by
      rw [List.foldl_cons]
      by_cases hn : b.moduleName == n
      · have heq : b.moduleName = n := by simpa using hn
        have hstep : goLookup (moduleCallsStep acc b) n
            = some { source := mc.source
                     module := { resources := mc.module.resources ++ [nestedResourceData b] } } := by
          unfold moduleCallsStep
          rw [heq, h, goLookup_goInsert_self]
        rw [moduleCalls_foldl_lookup_some bs _ n _ hstep]
        simp [List.filter_cons, hn]
      · have hne : n ≠ b.moduleName := fun hc => hn (by simp [hc])
        have hstep : goLookup (moduleCallsStep acc b) n = some mc := by
          unfold moduleCallsStep
          rw [goLookup_goInsert_ne _ _ _ _ hne, h]
        rw [moduleCalls_foldl_lookup_some bs _ n _ hstep]
        simp [List.filter_cons, hn]

/-- The module-calls map after processing blocks `bs` with no existing
entry under name `n`: the first matching nested block creates the entry
with its module source, and every matching block appends one declaration. -/
theorem moduleCalls_foldl_lookup_none :
    ∀ (bs : List Block) (acc : GoMap ModuleCall) (n : String),
      goLookup acc n = none →
      goLookup (bs.foldl moduleCallsStep acc) n
        = match bs.filter (fun b => b.moduleName == n) with
          | [] => none
          | b₀ :: group => some { source := b₀.moduleSource
                                  module := { resources := (b₀ :: group).map nestedResourceData } }
  | [], acc, n, h => by simpa using h
  | b :: bs, acc, n, h => by
      rw [List.foldl_cons]
      by_cases hn : b.moduleName == n
      · have heq : b.moduleName = n := by simpa using hn
        have hstep : goLookup (moduleCallsStep acc b) n
            = some { source := b.moduleSource
                     module := { resources := [nestedResourceData b] } } := by
          unfold moduleCallsStep
          rw [heq, h, goLookup_goInsert_self]
          rfl
        rw [moduleCalls_foldl_lookup_some bs _ n _ hstep]
        simp [List.filter_cons, hn]
      · have hne : n ≠ b.moduleName := fun hc => hn (by simp [hc])
        have hstep : goLookup (moduleCallsStep acc b) n = none := by
          unfold moduleCallsStep
          rw [goLookup_goInsert_ne _ _ _ _ hne, h]
        rw [moduleCalls_foldl_lookup_none bs _ n hstep]
        simp [List.filter_cons, hn]

/-- C2: a resource block nested in a module call lands under
`module_calls` keyed by its module name (with the module's declared
source, assuming one source per module name) and its planned record goes
to the single synthetic child-module bucket; the root-level configuration
and planned lists hold exactly the declarations of the non-nested resource
blocks, so a nested resource never appears in either. -/
theorem claimC2_nested_resource_placement (ms : List Module) (m : Module) (b : Block)
    (hm : m ∈ ms) (hb : b ∈ m.blocks) (hkind : b.kind = "resource")
    (hnested : b.hasModuleBlock = true)
    (hsrc : ∀ m' ∈ ms, ∀ b' ∈ m'.blocks, b'.kind = "resource" → b'.hasModuleBlock = true →
        b'.moduleName = b.moduleName → b'.moduleSource = b.moduleSource) :
    (∃ mc : ModuleCall,
        goLookup (modulesToPlanJSON ms).configuration.rootModule.moduleCalls b.moduleName
          = some mc
      ∧ mc.source = b.moduleSource
      ∧ nestedResourceData b ∈ mc.module.resources)
  ∧ resourceJSONOf b
      ∈ ((modulesToPlanJSON ms).plannedValues.rootModule.childModules.headD
          { resources := [] }).resources
  ∧ (modulesToPlanJSON ms).configuration.rootModule.resources
      = ms.flatMap (fun m' => (rootResourceBlocks m'.blocks).map
          (fun b' => rootResourceData (effectiveProviderKey (defaultProviderKey m') b') b'))
  ∧ (modulesToPlanJSON ms).plannedValues.rootModule.resources
      = ms.flatMap (fun m' => (rootResourceBlocks m'.blocks).map resourceJSONOf) := by
  have hbL : b ∈ ms.flatMap (fun m' => nestedResourceBlocks m'.blocks) := by
    apply List.mem_flatMap.mpr
    refine ⟨m, hm, ?_⟩
    unfold nestedResourceBlocks resourceBlocks
    rw [List.mem_filter, List.mem_filter]
    exact ⟨⟨hb, by simp [hkind]⟩, by simp [hnested]⟩
  refine ⟨?_, ?_, modulesToPlanJSON_configRoot ms, modulesToPlanJSON_plannedRoot ms⟩
  · rw [modulesToPlanJSON_moduleCalls]
    have hbG : b ∈ (ms.flatMap (fun m' => nestedResourceBlocks m'.blocks)).filter
        (fun b' => b'.moduleName == b.moduleName) := by
      rw [List.mem_filter]
      exact ⟨hbL, by simp⟩
    rw [moduleCalls_foldl_lookup_none _ [] _ rfl]
    cases hg : (ms.flatMap (fun m' => nestedResourceBlocks m'.blocks)).filter
        (fun b' => b'.moduleName == b.moduleName) with
    | nil => rw [hg] at hbG; cases hbG
    | cons b₀ group =>
        refine ⟨_, rfl, ?_, ?_⟩
        · have hb₀ : b₀ ∈ (ms.flatMap (fun m' => nestedResourceBlocks m'.blocks)).filter
              (fun b' => b'.moduleName == b.moduleName) := by
            rw [hg]
            exact List.mem_cons_self b₀ group
          rw [List.mem_filter] at hb₀
          rcases List.mem_flatMap.mp hb₀.1 with ⟨m', hm', hbm'⟩
          unfold nestedResourceBlocks resourceBlocks at hbm'
          rw [List.mem_filter, List.mem_filter] at hbm'
          exact hsrc m' hm' b₀ hbm'.1.1 (by simpa using hbm'.1.2) (by simpa using hbm'.2)
            (by simpa using hb₀.2)
        · show nestedResourceData b ∈ (b₀ :: group).map nestedResourceData
          apply List.mem_map.mpr
          exact ⟨b, by rw [← hg]; exact hbG, rfl⟩
  · rw [modulesToPlanJSON_childModules]
    show resourceJSONOf b ∈ ms.flatMap (fun m' => (nestedResourceBlocks m'.blocks).map resourceJSONOf)
    apply List.mem_flatMap.mpr
    refine ⟨m, hm, ?_⟩
    apply List.mem_map.mpr
    refine ⟨b, ?_, rfl⟩
    unfold nestedResourceBlocks resourceBlocks
    rw [List.mem_filter, List.mem_filter]
    exact ⟨⟨hb, by simp [hkind]⟩, by simp [hnested]⟩

/-- A resource block nested inside a module call named `net` with source
`./modules/net`. -/
def resC2 : Block :=
  .mk "resource" "aws_vpc" "main" [] [] [] true "net" "./modules/net" "module.net"
    "module.net.aws_vpc.main" "aws_vpc.main" "aws"

/-- A one-module input holding only the nested resource block. -/
def modC2 : Module := { blocks := [resC2] }

theorem claimC2_witness :
    (∃ mc : ModuleCall,
        goLookup (modulesToPlanJSON [modC2]).configuration.rootModule.moduleCalls
            resC2.moduleName = some mc
      ∧ mc.source = resC2.moduleSource
      ∧ nestedResourceData resC2 ∈ mc.module.resources)
  ∧ resourceJSONOf resC2
      ∈ ((modulesToPlanJSON [modC2]).plannedValues.rootModule.childModules.headD
          { resources := [] }).resources
  ∧ (modulesToPlanJSON [modC2]).configuration.rootModule.resources
      = [modC2].flatMap (fun m' => (rootResourceBlocks m'.blocks).map
          (fun b' => rootResourceData (effectiveProviderKey (defaultProviderKey m') b') b'))
  ∧ (modulesToPlanJSON [modC2]).plannedValues.rootModule.resources
      = [modC2].flatMap (fun m' => (rootResourceBlocks m'.blocks).map resourceJSONOf) :=
  claimC2_nested_resource_placement [modC2] modC2 resC2
    (List.mem_singleton.mpr rfl)
    (List.mem_singleton.mpr rfl)
    rfl
    rfl
    (by
      intro m' hm' b' hb' _ _ _
      rw [List.mem_singleton] at hm'
      subst hm'
      rw [show modC2.blocks = [resC2] from rfl, List.mem_singleton] at hb'
      subst hb'
      rfl)

/-- Writing a fresh key appends the entry. -/
theorem goInsert_of_not_mem_keys {α : Type} (m : GoMap α) (k : String) (v : α)
    (h : k ∉ m.map Prod.fst) : goInsert m k v = m ++ [(k, v)] := by
  unfold goInsert
  rw [if_neg]
  intro hc
  rcases List.any_eq_true.mp hc with ⟨kv, hkv, hbeq⟩
  exact h (List.mem_map.mpr ⟨kv, hkv, by simpa using hbeq⟩)

/-- The attribute-marshalling fold over a duplicate-free attribute map
appends, in order, one raw-bytes entry per non-skipped attribute. -/
theorem mav_foldl_append (bt : String) :
    ∀ (entries : List (String × CtyVal)) (acc : Obj),
      (entries.map Prod.fst).Nodup →
      (∀ kv ∈ entries, kv.1 ∉ acc.map Prod.fst) →
      entries.foldl (marshalAttributeValuesStep bt) acc
      = acc ++ (entries.filter
            (fun kv => !((bt == "resource" || bt == "module") && kv.1 == "count"))).map
          (fun kv => (kv.1, JVal.raw (ctyJsonMarshal kv.2).1))
  | [], acc, _, _ => by simp
  | kv :: rest, acc, hnd, hfresh => by
      have hnd0 := List.nodup_cons.mp (show (kv.1 :: rest.map Prod.fst).Nodup by simpa using hnd)
      have hnd' : (rest.map Prod.fst).Nodup := hnd0.2
      have hkv : kv.1 ∉ rest.map Prod.fst := hnd0.1
      rw [List.foldl_cons]
      by_cases hskip : ((bt == "resource" || bt == "module") && kv.1 == "count") = true
      · have hcf : (!((bt == "resource" || bt == "module") && kv.1 == "count")) = false := by
          rw [hskip]
          rfl
        have hstep : marshalAttributeValuesStep bt acc kv = acc := by
          unfold marshalAttributeValuesStep
          rw [if_pos hskip]
        rw [hstep, mav_foldl_append bt rest acc hnd'
          (fun kv' h => hfresh kv' (List.mem_cons_of_mem kv h))]
        congr 1
        rw [List.filter_cons, if_neg (by rw [hcf]; exact Bool.false_ne_true)]
      · have hct : (!((bt == "resource" || bt == "module") && kv.1 == "count")) = true := by
          rw [Bool.eq_false_iff.mpr hskip]
          rfl
        have hstep : marshalAttributeValuesStep bt acc kv
            = acc ++ [(kv.1, JVal.raw (ctyJsonMarshal kv.2).1)] := by
          unfold marshalAttributeValuesStep
          rw [if_neg hskip,
            goInsert_of_not_mem_keys acc kv.1 _ (hfresh kv (List.mem_cons_self kv rest))]
        have hfresh' : ∀ kv' ∈ rest,
            kv'.1 ∉ (acc ++ [(kv.1, JVal.raw (ctyJsonMarshal kv.2).1)]).map Prod.fst := by
          intro kv' hkv'
          rw [List.map_append]
          intro hc
          rcases List.mem_append.mp hc with hc1 | hc2
          · exact hfresh kv' (List.mem_cons_of_mem kv hkv') hc1
          · simp only [List.map_cons, List.map_nil, List.mem_singleton] at hc2
            exact hkv (hc2 ▸ List.mem_map.mpr ⟨kv', hkv', rfl⟩)
        rw [hstep, mav_foldl_append bt rest _ hnd' hfresh']
        rw [List.filter_cons, if_pos hct]
        simp

/-- `marshalAttributeValues` on an object value with duplicate-free keys:
the map of raw-encoded entries, the `count` attribute skipped for resource
and module blocks, and a failed per-attribute encode still recorded with
the (empty) bytes it produced. -/
theorem marshalAttributeValues_obj (bt : String) (entries : List (String × CtyVal))
    (hnd : (entries.map Prod.fst).Nodup) :
    marshalAttributeValues bt (.obj entries)
      = some ((entries.filter
            (fun kv => !((bt == "resource" || bt == "module") && kv.1 == "count"))).map
          (fun kv => (kv.1, JVal.raw (ctyJsonMarshal kv.2).1))) := by
  show some (entries.foldl (marshalAttributeValuesStep bt) []) = _
  rw [mav_foldl_append bt entries [] hnd (by simp)]
  rfl

/-- For resource and module blocks the marshalling fold never binds the key
`count`. -/
theorem mav_foldl_count_none (bt : String) (hbt : bt = "resource" ∨ bt = "module") :
    ∀ (entries : List (String × CtyVal)) (acc : Obj),
      goLookup acc "count" = none →
      goLookup (entries.foldl (marshalAttributeValuesStep bt) acc) "count" = none
  | [], _, h => h
  | kv :: rest, acc, h => by
      rw [List.foldl_cons]
      have hbt' : (bt == "resource" || bt == "module") = true := by
        rcases hbt with h' | h' <;> simp [h']
      by_cases hskip : ((bt == "resource" || bt == "module") && kv.1 == "count") = true
      · have hstep : marshalAttributeValuesStep bt acc kv = acc := by
          unfold marshalAttributeValuesStep
          rw [if_pos hskip]
        rw [hstep]
        exact mav_foldl_count_none bt hbt rest acc h
      · have hkc : ¬(kv.1 = "count") := by
          intro hc
          exact hskip (by simp [hbt', hc])
        have hstep : marshalAttributeValuesStep bt acc kv
            = goInsert acc kv.1 (.raw (ctyJsonMarshal kv.2).1) := by
          unfold marshalAttributeValuesStep
          rw [if_neg hskip]
        rw [hstep]
        exact mav_foldl_count_none bt hbt rest _
          (by rw [goLookup_goInsert_ne _ _ _ _ (fun hc => hkc hc.symm)]; exact h)

/-- `marshalAttributeValues` never produces a `count` key for resource and
module blocks, whatever the input container. -/
theorem marshalAttributeValues_count_none (bt : String) (v : CtyVal) (m : Obj)
    (hbt : bt = "resource" ∨ bt = "module")
    (h : marshalAttributeValues bt v = some m) : goLookup m "count" = none := by
  cases v with
  | nilVal => cases h
  | nullVal => cases h
  | str s =>
      rw [show marshalAttributeValues bt (.str s) = some [] from rfl] at h
      cases h
      rfl
  | num n =>
      rw [show marshalAttributeValues bt (.num n) = some [] from rfl] at h
      cases h
      rfl
  | boolean bb =>
      rw [show marshalAttributeValues bt (.boolean bb) = some [] from rfl] at h
      cases h
      rfl
  | badVal t =>
      rw [show marshalAttributeValues bt (.badVal t) = some [] from rfl] at h
      cases h
      rfl
  | obj entries =>
      rw [show marshalAttributeValues bt (.obj entries)
          = some (entries.foldl (marshalAttributeValuesStep bt) []) from rfl] at h
      cases h
      exact mav_foldl_count_none bt hbt entries [] rfl

/-- `marshalBlock`'s child merging only writes child-kind keys, so lookups
at any other key are unchanged. -/
theorem marshalChildren_goLookup_preserve :
    ∀ (cs : List Block) (jv : Obj) (k : String), (∀ c ∈ cs, c.kind ≠ k) →
      goLookup (marshalChildren cs jv) k = goLookup jv k
  | [], jv, k, _ => by rw [marshalChildren]
  | b :: rest, jv, k, h => by
      rw [marshalChildren]
      have hbk : k ≠ b.kind := fun hc => h b (List.mem_cons_self b rest) hc.symm
      have hrest := marshalChildren_goLookup_preserve rest
      cases hl : goLookup jv b.kind with
      | none =>
          simp only [hl]
          rw [hrest _ k (fun c hc => h c (List.mem_cons_of_mem b hc)),
            goLookup_goInsert_ne _ _ _ _ hbk]
      | some v =>
          cases v <;>
            (simp only [hl]
             rw [hrest _ k (fun c hc => h c (List.mem_cons_of_mem b hc)),
               goLookup_goInsert_ne _ _ _ _ hbk])

/-- A resource block's marshalled value snapshot has no `count` key when no
direct child block has kind `count`. -/
theorem resourceJsonValues_count_none (b : Block) (hkind : b.kind = "resource")
    (hcc : ∀ c ∈ b.children, c.kind ≠ "count") :
    goLookup (resourceJsonValues b) "count" = none := by
  unfold resourceJsonValues
  rw [marshalBlock]
  rw [marshalChildren_goLookup_preserve b.children _ _ hcc]
  rcases marshalAttributeValues_blockValues_isSome b.kind b with ⟨m, hm⟩
  rw [hm]
  exact marshalAttributeValues_count_none b.kind b.blockValues m (Or.inl hkind) hm

/-- C5: the `count` attribute is never a key of a resource or module
block's marshalled value map, even when the input attribute set contains
it; hence (child blocks of kind `count` aside, which cannot occur in HCL)
no planned-values snapshot or resource-change `after` snapshot has a
`count` key. -/
theorem claimC5_count_attribute_skipped (ms : List Module)
    (hcc : ∀ m ∈ ms, ∀ b ∈ m.blocks, ∀ c ∈ b.children, c.kind ≠ "count") :
    (∀ (bt : String) (v : CtyVal) (mp : Obj), (bt = "resource" ∨ bt = "module") →
        marshalAttributeValues bt v = some mp → goLookup mp "count" = none)
  ∧ (∀ rc ∈ (modulesToPlanJSON ms).resourceChanges,
        goLookup rc.change.after "count" = none)
  ∧ (∀ r ∈ (modulesToPlanJSON ms).plannedValues.rootModule.resources,
        goLookup r.values "count" = none)
  ∧ (∀ cm ∈ (modulesToPlanJSON ms).plannedValues.rootModule.childModules,
        ∀ r ∈ cm.resources, goLookup r.values "count" = none) := by
  have hblock : ∀ m ∈ ms, ∀ b ∈ m.blocks, b.kind = "resource" →
      goLookup (resourceJsonValues b) "count" = none := by
    intro m hm b hb hkind
    exact resourceJsonValues_count_none b hkind (hcc m hm b hb)
  refine ⟨fun bt v mp hbt h => marshalAttributeValues_count_none bt v mp hbt h, ?_, ?_, ?_⟩
  · intro rc hrc
    rw [modulesToPlanJSON_resourceChanges] at hrc
    rcases List.mem_flatMap.mp hrc with ⟨m, hm, hrc'⟩
    rcases List.mem_map.mp hrc' with ⟨b, hb, hbe⟩
    unfold resourceBlocks at hb
    rw [List.mem_filter] at hb
    rw [← hbe]
    exact hblock m hm b hb.1 (by simpa using hb.2)
  · intro r hr
    rw [modulesToPlanJSON_plannedRoot] at hr
    rcases List.mem_flatMap.mp hr with ⟨m, hm, hr'⟩
    rcases List.mem_map.mp hr' with ⟨b, hb, hbe⟩
    unfold rootResourceBlocks resourceBlocks at hb
    rw [List.mem_filter, List.mem_filter] at hb
    rw [← hbe]
    exact hblock m hm b hb.1.1 (by simpa using hb.1.2)
  · intro cm hcm r hr
    rw [modulesToPlanJSON_childModules] at hcm
    rw [List.mem_singleton] at hcm
    subst hcm
    rcases List.mem_flatMap.mp hr with ⟨m, hm, hr'⟩
    rcases List.mem_map.mp hr' with ⟨b, hb, hbe⟩
    unfold nestedResourceBlocks resourceBlocks at hb
    rw [List.mem_filter, List.mem_filter] at hb
    rw [← hbe]
    exact hblock m hm b hb.1.1 (by simpa using hb.1.2)

/-- A resource block whose evaluated attribute set contains `count = 3`. -/
def resC5 : Block :=
  .mk "resource" "aws_instance" "web" []
    [("count", .num 3), ("ami", .str "ami-123")] [] false "" "" ""
    "aws_instance.web" "aws_instance.web" "aws"

def modC5 : Module := { blocks := [resC5] }

theorem claimC5_witness :
    (∀ (bt : String) (v : CtyVal) (mp : Obj), (bt = "resource" ∨ bt = "module") →
        marshalAttributeValues bt v = some mp → goLookup mp "count" = none)
  ∧ (∀ rc ∈ (modulesToPlanJSON [modC5]).resourceChanges,
        goLookup rc.change.after "count" = none)
  ∧ (∀ r ∈ (modulesToPlanJSON [modC5]).plannedValues.rootModule.resources,
        goLookup r.values "count" = none)
  ∧ (∀ cm ∈ (modulesToPlanJSON [modC5]).plannedValues.rootModule.childModules,
        ∀ r ∈ cm.resources, goLookup r.values "count" = none) :=
  claimC5_count_attribute_skipped [modC5]
    (by
      intro m hm b hb c hc
      rw [List.mem_singleton] at hm
      subst hm
      rw [show modC5.blocks = [resC5] from rfl, List.mem_singleton] at hb
      subst hb
      rw [show resC5.children = [] from rfl] at hc
      cases hc)

/-- C7: the conversion is deterministic.  Two serialization runs of the
same (unmutated) converted module tree — each observing every Go map in an
arbitrary iteration order — produce byte-identical plan-JSON output,
because `encoding/json` sorts map keys. -/
theorem claimC7_deterministic_output (ms : List Module)
    (r₁ r₂ : List String → List String)
    (h₁ : ∀ l, (r₁ l).Perm l) (h₂ : ∀ l, (r₂ l).Perm l) :
    jsonMarshalWith r₁ (modulesToPlanJSON ms) = jsonMarshalWith r₂ (modulesToPlanJSON ms) := by
  unfold jsonMarshalWith
  rw [renderWith_congr r₁ r₂ h₁ h₂]

theorem claimC7_witness :
    jsonMarshalWith (fun l => l) (modulesToPlanJSON [modC2])
      = jsonMarshalWith (fun l => l.reverse) (modulesToPlanJSON [modC2]) :=
  claimC7_deterministic_output [modC2] (fun l => l) (fun l => l.reverse)
    (fun l => List.Perm.refl l)
    (fun l => List.reverse_perm l)

/-- C6: after a successful parse the only failure path is the document
serialization error, which is returned wrapped with the descriptive prefix;
a parse error is propagated unchanged; and on any error no bytes are
returned. -/
theorem claimC6_all_or_nothing (parsed : Except String (List Module)) :
    (∀ e, parsed = .error e → loadPlanJSON parsed = .error e)
  ∧ (∀ ms, parsed = .ok ms →
      (∀ b, loadPlanJSON parsed = .ok b ↔ jsonMarshal (modulesToPlanJSON ms) = .ok b)
      ∧ (∀ e, jsonMarshal (modulesToPlanJSON ms) = .error e →
          loadPlanJSON parsed = .error ("error handling built plan json from hcl " ++ e)))
  ∧ (∀ e, loadPlanJSON parsed = .error e → ∀ b, loadPlanJSON parsed ≠ .ok b) := by
  refine ⟨?_, ?_, ?_⟩
  · intro e he
    subst he
    rfl
  · intro ms hms
    subst hms
    have hred : loadPlanJSON (.ok ms)
        = match jsonMarshal (modulesToPlanJSON ms) with
          | .error err => .error ("error handling built plan json from hcl " ++ err)
          | .ok b => .ok b := rfl
    constructor
    · intro b
      rw [hred]
      cases hj : jsonMarshal (modulesToPlanJSON ms) with
      | error err => simp
      | ok bytes => simp
    · intro e he
      rw [hred, he]
  · intro e he b
    rw [he]
    intro hc
    cases hc

/-- A resource block with an attribute value the JSON encoder cannot
encode. -/
def resBad : Block :=
  .mk "resource" "aws_instance" "web" [] [("crash", .badVal "boom")] [] false "" "" ""
    "aws_instance.web" "aws_instance.web" "aws"

def modBad : Module := { blocks := [resBad] }

/-- Converting the bad-value module produces a document whose serialization
fails: the failed per-attribute encode left an empty raw message behind. -/
theorem jsonMarshal_modBad_error :
    jsonMarshal (modulesToPlanJSON [modBad])
      = .error "json: error calling MarshalJSON for type json.RawMessage: unexpected end of JSON input" := by
  unfold jsonMarshal jsonMarshalWith
  rw [if_neg]
  intro hv
  rw [show modulesToPlanJSON [modBad] = processModule initialPlanSchema modBad from rfl] at hv
  simp [processModule, providerPass, providerStep, resourceStep, processResourceBlock,
    initialPlanSchema, modBad, resBad, planSchemaToJVal, resourceChangesJSONToJVal,
    resourceJSONToJVal, resourceDataToJVal, moduleCallToJVal, providerConfigToJVal,
    jvalValid, resourceChangeOf, resourceJSONOf, resourceJsonValues, marshalBlock,
    marshalChildren, marshalAttributeValues, marshalAttributeValuesStep, ctyElements,
    ctyJsonMarshal, goInsert, Block.kind, Block.blockValues, Block.values,
    Block.children, appendToChildModule, rootResourceData, effectiveProviderKey,
    Block.getAttribute, Block.attributes, blockToReferences, childExpressionsOf,
    List.attach, List.attachWith] at hv
  exact absurd hv (by decide)

theorem claimC6_witness :
    loadPlanJSON (.error "parse failed") = .error "parse failed"
  ∧ loadPlanJSON (.ok [modBad])
      = .error ("error handling built plan json from hcl "
          ++ "json: error calling MarshalJSON for type json.RawMessage: unexpected end of JSON input") :=
  ⟨(claimC6_all_or_nothing (.error "parse failed")).1 "parse failed" rfl,
   ((claimC6_all_or_nothing (.ok [modBad])).2.1 [modBad] rfl).2 _ jsonMarshal_modBad_error⟩

/-- C9: encoding a single attribute value never aborts the conversion —
the per-attribute error is discarded and the attribute is still recorded
with the raw bytes the failed encode produced; the only serialization
error surfaced to the caller is the one from marshalling the fully
assembled document, wrapped with the descriptive prefix. -/
theorem claimC9_attribute_errors_discarded (ms : List Module) (bt : String)
    (entries : List (String × CtyVal)) (hnd : (entries.map Prod.fst).Nodup) :
    marshalAttributeValues bt (.obj entries)
      = some ((entries.filter
            (fun kv => !((bt == "resource" || bt == "module") && kv.1 == "count"))).map
          (fun kv => (kv.1, JVal.raw (ctyJsonMarshal kv.2).1)))
  ∧ (∀ e, loadPlanJSON (.ok ms) = .error e →
        ∃ e', jsonMarshal (modulesToPlanJSON ms) = .error e'
          ∧ e = "error handling built plan json from hcl " ++ e') := by
  refine ⟨marshalAttributeValues_obj bt entries hnd, ?_⟩
  intro e he
  have hred : loadPlanJSON (.ok ms)
      = match jsonMarshal (modulesToPlanJSON ms) with
        | .error err => .error ("error handling built plan json from hcl " ++ err)
        | .ok b => .ok b := rfl
  rw [hred] at he
  cases hj : jsonMarshal (modulesToPlanJSON ms) with
  | error err =>
      rw [hj] at he
      refine ⟨err, rfl, ?_⟩
      cases he
      rfl
  | ok bytes =>
      rw [hj] at he
      cases he

theorem claimC9_witness :
    marshalAttributeValues "resource" (.obj [("ok", .str "x"), ("bad", .badVal "boom")])
      = some [("ok", .raw "\x22x\x22"), ("bad", .raw "")]
  ∧ (∀ e, loadPlanJSON (.ok [modBad]) = .error e →
        ∃ e', jsonMarshal (modulesToPlanJSON [modBad]) = .error e'
          ∧ e = "error handling built plan json from hcl " ++ e') := by
  have h := claimC9_attribute_errors_discarded [modBad] "resource"
    [("ok", .str "x"), ("bad", .badVal "boom")] (by simp)
  refine ⟨?_, h.2⟩
  rw [h.1]
  simp [ctyJsonMarshal]

/-- The recursive extraction results of the children of kind `k` that
produced at least one reference, in declaration order. -/
def childRefObjs (cs : List Block) (k : String) : List Obj :=
  ((cs.filter (fun c => c.kind == k)).map blockToReferences).filter
    (fun o => o.length > 0)

theorem childRefObjs_nil (k : String) : childRefObjs [] k = [] := rfl

theorem childRefObjs_cons (c : Block) (cs : List Block) (k : String) :
    childRefObjs (c :: cs) k
      = (if c.kind == k then
          (if (blockToReferences c).length > 0 then [blockToReferences c] else [])
        else []) ++ childRefObjs cs k := by
  unfold childRefObjs
  by_cases hk : c.kind == k
  · rw [List.filter_cons, if_pos hk, List.map_cons, List.filter_cons]
    by_cases hr : (blockToReferences c).length > 0
    · rw [if_pos (by simpa using hr), if_pos hk, if_pos hr]
      simp
    · rw [if_neg (by simpa using hr), if_pos hk, if_neg hr]
      simp
  · rw [List.filter_cons, if_neg hk, if_neg hk]
    simp

/-- The child scan extends an existing entry by the matching children's
non-empty extraction results, in order. -/
theorem childExpressionsOf_lookup_some :
    ∀ (cs : List Block) (acc : GoMap (List Obj)) (k : String) (vals : List Obj),
      goLookup acc k = some vals →
      goLookup (childExpressionsOf cs acc) k = some (vals ++ childRefObjs cs k)
  | [], acc, k, vals, h => by
      rw [childExpressionsOf, childRefObjs_nil]
      simpa using h
  | c :: cs, acc, k, vals, h => by
      rw [childExpressionsOf, childRefObjs_cons]
      by_cases hr : (blockToReferences c).length > 0
      · rw [if_pos hr]
        by_cases hk : c.kind == k
        · have heq : c.kind = k := by simpa using hk
          have hacc : goLookup (goInsert acc c.kind
              ((goLookup acc c.kind).getD [] ++ [blockToReferences c])) k
              = some (vals ++ [blockToReferences c]) := by
            rw [heq, goLookup_goInsert_self, h]
            rfl
          rw [childExpressionsOf_lookup_some cs _ k _ hacc, if_pos hk, if_pos hr]
          simp
        · have hne : k ≠ c.kind := fun hc => hk (by simp [hc])
          have hacc : goLookup (goInsert acc c.kind
              ((goLookup acc c.kind).getD [] ++ [blockToReferences c])) k = some vals := by
            rw [goLookup_goInsert_ne _ _ _ _ hne, h]
          rw [childExpressionsOf_lookup_some cs _ k _ hacc, if_neg hk]
          simp
      · rw [if_neg hr, childExpressionsOf_lookup_some cs acc k vals h]
        by_cases hk : c.kind == k
        · rw [if_pos hk, if_neg hr]
          simp
        · rw [if_neg hk]
          simp

/-- The child scan creates the entry at the first matching child with a
non-empty extraction, collecting all such children's results in order. -/
theorem childExpressionsOf_lookup_none :
    ∀ (cs : List Block) (acc : GoMap (List Obj)) (k : String),
      goLookup acc k = none →
      goLookup (childExpressionsOf cs acc) k
        = match childRefObjs cs k with
          | [] => none
          | objs => some objs
  | [], acc, k, h => by
      rw [childExpressionsOf, childRefObjs_nil]
      simpa using h
  | c :: cs, acc, k, h => by
      rw [childExpressionsOf, childRefObjs_cons]
      by_cases hr : (blockToReferences c).length > 0
      · rw [if_pos hr]
        by_cases hk : c.kind == k
        · have heq : c.kind = k := by simpa using hk
          have hacc : goLookup (goInsert acc c.kind
              ((goLookup acc c.kind).getD [] ++ [blockToReferences c])) k
              = some [blockToReferences c] := by
            rw [heq, goLookup_goInsert_self, h]
            rfl
          rw [childExpressionsOf_lookup_some cs _ k _ hacc, if_pos hk, if_pos hr]
          simp
        · have hne : k ≠ c.kind := fun hc => hk (by simp [hc])
          have hacc : goLookup (goInsert acc c.kind
              ((goLookup acc c.kind).getD [] ++ [blockToReferences c])) k = none := by
            rw [goLookup_goInsert_ne _ _ _ _ hne, h]
          rw [childExpressionsOf_lookup_none cs _ k hacc, if_neg hk]
          simp
      · rw [if_neg hr, childExpressionsOf_lookup_none cs acc k h]
        by_cases hk : c.kind == k
        · rw [if_pos hk, if_neg hr]
          simp
        · rw [if_neg hk]
          simp

/-- The child scan builds a duplicate-free key list. -/
theorem childExpressionsOf_keys_nodup :
    ∀ (cs : List Block) (acc : GoMap (List Obj)),
      (acc.map Prod.fst).Nodup → ((childExpressionsOf cs acc).map Prod.fst).Nodup
  | [], acc, h => by
      rw [childExpressionsOf]
      exact h
  | c :: cs, acc, h => by
      rw [childExpressionsOf]
      by_cases hr : (blockToReferences c).length > 0
      · rw [if_pos hr]
        exact childExpressionsOf_keys_nodup cs _ (goInsert_keys_nodup _ _ _ h)
      · rw [if_neg hr]
        exact childExpressionsOf_keys_nodup cs acc h

/-- The reference-list wrapper recorded for one attribute (`refs{...}`). -/
def attrEntry (a : Attribute) : JVal :=
  .structObj [("references", .arr (a.references.map .str))]

/-- The body of `blockToReferences`' attribute loop, with the (pure,
iteration-independent) child scan result as a parameter. -/
def refsAttrStep (ce : GoMap (List Obj)) (ev : Obj) (attr : Attribute) : Obj :=
  let ev' :=
    if attr.references.length > 0 then
      goInsert ev attr.name (.structObj [("references", .arr (attr.references.map .str))])
    else ev
  ce.foldl (fun ev nv => goInsert ev nv.1 (.arr (nv.2.map .mapObj))) ev'

theorem blockToReferences_eq_foldl (b : Block) :
    blockToReferences b
      = b.attributes.foldl (refsAttrStep (childExpressionsOf b.children [])) [] := by
  rw [blockToReferences]
  rfl

/-- Keys bound neither by an attribute nor by the child scan stay
unbound through the extraction fold. -/
theorem refsFold_lookup_other (ce : GoMap (List Obj)) :
    ∀ (attrs : List Attribute) (ev : Obj) (k : String),
      (ce.map Prod.fst).Nodup → (∀ a ∈ attrs, a.name ≠ k) → goLookup ce k = none →
      goLookup (attrs.foldl (refsAttrStep ce) ev) k = goLookup ev k
  | [], _, _, _, _, _ => rfl
  | a :: rest, ev, k, hnd, hnames, hce => by
      rw [List.foldl_cons,
        refsFold_lookup_other ce rest _ k hnd (fun a' h => hnames a' (List.mem_cons_of_mem a h)) hce]
      unfold refsAttrStep
      rw [foldl_goInsert_image_lookup (fun v : List Obj => JVal.arr (v.map JVal.mapObj)) ce _ k hnd,
        hce]
      by_cases hr : a.references.length > 0
      · rw [if_pos hr,
          goLookup_goInsert_ne _ _ _ _ (fun hc => hnames a (List.mem_cons_self a rest) hc.symm)]
      · rw [if_neg hr]

/-- A key bound by the child scan ends at the child-kind entry as soon as
at least one attribute iteration runs. -/
theorem refsFold_lookup_ce (ce : GoMap (List Obj)) :
    ∀ (attrs : List Attribute) (ev : Obj) (k : String) (vals : List Obj),
      (ce.map Prod.fst).Nodup → goLookup ce k = some vals → attrs ≠ [] →
      goLookup (attrs.foldl (refsAttrStep ce) ev) k = some (.arr (vals.map .mapObj))
  | [], _, _, _, _, _, hne => absurd rfl hne
  | a :: rest, ev, k, vals, hnd, hce, _ => by
      rw [List.foldl_cons]
      cases hrest : rest with
      | nil =>
          show goLookup (refsAttrStep ce ev a) k = _
          unfold refsAttrStep
          rw [foldl_goInsert_image_lookup (fun v : List Obj => JVal.arr (v.map JVal.mapObj)) ce _ k hnd,
            hce]
      | cons a' rest' =>
          rw [← hrest]
          exact refsFold_lookup_ce ce rest _ k vals hnd hce (by rw [hrest]; exact List.cons_ne_nil a' rest')

/-- An attribute's key ends at its reference wrapper exactly when the
attribute has references (assuming distinct attribute names and no clash
with the child scan's keys). -/
theorem refsFold_lookup_attr (ce : GoMap (List Obj)) :
    ∀ (attrs : List Attribute) (ev : Obj) (a : Attribute),
      (ce.map Prod.fst).Nodup → a ∈ attrs →
      (attrs.map (fun a' => a'.name)).Nodup → goLookup ce a.name = none →
      goLookup (attrs.foldl (refsAttrStep ce) ev) a.name
        = if a.references.length > 0 then some (attrEntry a) else goLookup ev a.name
  | [], _, a, _, hmem, _, _ => absurd hmem (List.not_mem_nil a)
  | a₀ :: rest, ev, a, hnd, hmem, hnames, hce => by
      have hnames0 := List.nodup_cons.mp (show (a₀.name :: rest.map (fun a' => a'.name)).Nodup by
        simpa using hnames)
      rw [List.foldl_cons]
      rcases List.mem_cons.mp hmem with heq | hmemrest
      · subst heq
        have hpres : goLookup (rest.foldl (refsAttrStep ce) (refsAttrStep ce ev a)) a.name
            = goLookup (refsAttrStep ce ev a) a.name := by
          apply refsFold_lookup_other ce rest _ a.name hnd ?_ hce
          intro a' ha' hc
          exact hnames0.1 (hc ▸ List.mem_map.mpr ⟨a', ha', rfl⟩)
        rw [hpres]
        unfold refsAttrStep
        rw [foldl_goInsert_image_lookup (fun v : List Obj => JVal.arr (v.map JVal.mapObj)) ce _ _ hnd,
          hce]
        by_cases hr : a.references.length > 0
        · rw [if_pos hr, if_pos hr, goLookup_goInsert_self]
          rfl
        · rw [if_neg hr, if_neg hr]
      · have hne : a.name ≠ a₀.name := by
          intro hc
          exact hnames0.1 (hc ▸ List.mem_map.mpr ⟨a, hmemrest, rfl⟩)
        rw [refsFold_lookup_attr ce rest _ a hnd hmemrest hnames0.2 hce]
        by_cases hr : a.references.length > 0
        · rw [if_pos hr, if_pos hr]
        · rw [if_neg hr, if_neg hr]
          unfold refsAttrStep
          rw [foldl_goInsert_image_lookup (fun v : List Obj => JVal.arr (v.map JVal.mapObj)) ce _ _ hnd,
            hce]
          by_cases hr₀ : a₀.references.length > 0
          · rw [if_pos hr₀, goLookup_goInsert_ne _ _ _ _ hne]
          · rw [if_neg hr₀]

theorem childRefObjs_eq_nil (cs : List Block) (k : String)
    (h : ∀ c ∈ cs, c.kind ≠ k) : childRefObjs cs k = [] := by
  unfold childRefObjs
  have : cs.filter (fun c => c.kind == k) = [] := by
    rw [List.filter_eq_nil_iff]
    intro c hc
    simp [h c hc]
  rw [this]
  rfl

/-- C3 (amended): the reference extraction maps every attribute with at
least one reference to its wrapper (length and order preserved), omits
attributes with zero references, and — provided the block has at least one
attribute, because the source's child scan sits inside the attribute loop —
maps every child kind whose children's recursive extraction contributed
anything to the ordered list of those contributions, omitting empty
contributors and contributing kinds with nothing; a block with no
attributes extracts an empty map, its children never scanned; and no other
key is ever bound (assuming distinct attribute names, disjoint from the
child kinds). -/
theorem claimC3_reference_extraction_amended (b : Block)
    (hnd : (b.attributes.map (fun a => a.name)).Nodup)
    (hdisj : ∀ a ∈ b.attributes, ∀ c ∈ b.children, a.name ≠ c.kind) :
    (∀ a ∈ b.attributes,
        goLookup (blockToReferences b) a.name
          = if a.references.length > 0 then some (attrEntry a) else none)
  ∧ (∀ c ∈ b.children, b.attributes ≠ [] →
        goLookup (blockToReferences b) c.kind
          = match childRefObjs b.children c.kind with
            | [] => none
            | objs => some (.arr (objs.map .mapObj)))
  ∧ (b.attributes = [] → blockToReferences b = [])
  ∧ (∀ k, (∀ a ∈ b.attributes, a.name ≠ k) → (∀ c ∈ b.children, c.kind ≠ k) →
        goLookup (blockToReferences b) k = none) := by
  have hndce : ((childExpressionsOf b.children []).map Prod.fst).Nodup :=
    childExpressionsOf_keys_nodup b.children [] List.nodup_nil
  refine ⟨?_, ?_, ?_, ?_⟩
  · intro a ha
    have hcek : goLookup (childExpressionsOf b.children []) a.name = none := by
      rw [childExpressionsOf_lookup_none b.children [] a.name rfl,
        childRefObjs_eq_nil b.children a.name (fun c hc hck => hdisj a ha c hc hck.symm)]
    rw [blockToReferences_eq_foldl,
      refsFold_lookup_attr _ b.attributes [] a hndce ha hnd hcek]
    by_cases hr : a.references.length > 0
    · rw [if_pos hr, if_pos hr]
    · rw [if_neg hr, if_neg hr]
      rfl
  · intro c hc hattrs
    rw [blockToReferences_eq_foldl]
    have hcek := childExpressionsOf_lookup_none b.children [] c.kind rfl
    cases hobjs : childRefObjs b.children c.kind with
    | nil =>
        rw [hobjs] at hcek
        rw [refsFold_lookup_other _ b.attributes [] c.kind hndce
          (fun a ha => hdisj a ha c hc) hcek]
        rfl
    | cons o objs =>
        rw [hobjs] at hcek
        exact refsFold_lookup_ce _ b.attributes [] c.kind (o :: objs) hndce hcek hattrs
  · intro hattrs
    rw [blockToReferences_eq_foldl, hattrs]
    rfl
  · intro k hnames hkinds
    have hcek : goLookup (childExpressionsOf b.children []) k = none := by
      rw [childExpressionsOf_lookup_none b.children [] k rfl,
        childRefObjs_eq_nil b.children k hkinds]
    rw [blockToReferences_eq_foldl,
      refsFold_lookup_other _ b.attributes [] k hndce hnames hcek]
    rfl

/-- A child block whose one attribute carries one reference. -/
def childC3 : Block :=
  .mk "ingress" "" ""
    [{ name := "cidr", value := .str "10.0.0.0/16", references := ["aws_vpc.main.cidr_block"] }]
    [] [] false "" "" "" "" "" ""

/-- A block with no attributes of its own and one child that produced a
reference. -/
def blockC3 : Block :=
  .mk "resource" "aws_security_group" "sg" [] [] [childC3] false "" "" ""
    "aws_security_group.sg" "aws_security_group.sg" "aws"

/-- C3 counterexample: the child's own extraction is non-empty, so under
the claim the parent's map must contain an entry for the child's kind
`ingress`; but the parent has no attributes, the source's child scan sits
inside the attribute loop and never runs, and the extraction returns the
empty map. -/
theorem claimC3_counterexample :
    blockC3.attributes = []
  ∧ blockC3.children = [childC3]
  ∧ blockToReferences childC3
      = [("cidr", .structObj [("references", .arr [.str "aws_vpc.main.cidr_block"])])]
  ∧ blockToReferences blockC3 = []
  ∧ goLookup (blockToReferences blockC3) childC3.kind = none := by
  refine ⟨rfl, rfl, ?_, ?_, ?_⟩
  · simp [blockToReferences, childExpressionsOf, childC3, Block.attributes, Block.children,
      goInsert, goLookup]
  · simp [blockToReferences, blockC3, Block.attributes]
  · simp [blockToReferences, blockC3, Block.attributes, goLookup]

/-- A block with one referencing attribute and one child block that also
produced a reference. -/
def blockC3W : Block :=
  .mk "resource" "aws_instance" "web"
    [{ name := "vpc_id", value := .str "", references := ["aws_vpc.main.id"] }]
    [] [childC3] false "" "" "" "aws_instance.web" "aws_instance.web" "aws"

theorem claimC3_witness :
    (∀ a ∈ blockC3W.attributes,
        goLookup (blockToReferences blockC3W) a.name
          = if a.references.length > 0 then some (attrEntry a) else none)
  ∧ (∀ c ∈ blockC3W.children, blockC3W.attributes ≠ [] →
        goLookup (blockToReferences blockC3W) c.kind
          = match childRefObjs blockC3W.children c.kind with
            | [] => none
            | objs => some (.arr (objs.map .mapObj)))
  ∧ (blockC3W.attributes = [] → blockToReferences blockC3W = [])
  ∧ (∀ k, (∀ a ∈ blockC3W.attributes, a.name ≠ k) →
        (∀ c ∈ blockC3W.children, c.kind ≠ k) →
        goLookup (blockToReferences blockC3W) k = none) :=
  claimC3_reference_extraction_amended blockC3W
    (by decide)
    (by
      intro a ha c hc
      rw [show blockC3W.attributes
          = [{ name := "vpc_id", value := .str "", references := ["aws_vpc.main.id"] }] from rfl,
        List.mem_singleton] at ha
      rw [show blockC3W.children = [childC3] from rfl, List.mem_singleton] at hc
      subst ha
      subst hc
      decide)
